import Mathlib

/-!
# tsh: job control of a tiny shell

A model of `tsh.c`.  The global variables of the program (`jobs`, `nextjid`,
`verbose`) are the fields of `Shell`; what the program does to the outside world
(`printf`, `kill`, the blocking `waitfg`) is appended, in program order, to the
`trace` field.

* The array `struct job_t jobs[MAXJOBS]` is the list of its slots, slot `i` at
  position `i`; a pointer `&jobs[i]` is the index `i`, `NULL` is `none`.
* `pid_t` and `int` values are integers.  The only additions of the job list
  (`nextjid++`, `maxjid(jobs)+1`) are signed, so they have no wrap-around
  semantics in C; they are taken on `Int`.  The conversion of user input by
  `atoi`, where out-of-range values do occur, is modelled with explicit
  truncation to 32 bits.
* C strings are `String` (resp. `List Char` where they are scanned).
-/

namespace Tsh

/-! ## Constants -/

/-- Capacity of the job list: `#define MAXJOBS 16`. -/
def MAXJOBS : Nat := 16

/-- Job state `UNDEF`: undefined. -/
def UNDEF : Int := 0
/-- Job state `FG`: running in foreground. -/
def FG : Int := 1
/-- Job state `BG`: running in background. -/
def BG : Int := 2
/-- Job state `ST`: stopped. -/
def ST : Int := 3

/-- Signal number of `SIGCONT` in `<signal.h>` (Linux). -/
def SIGCONT : Int := 18

/-! ## Data model -/

/-- The job struct `struct job_t`. -/
structure job_t where
  /-- job PID -/
  pid : Int
  /-- job ID [1, 2, ...] -/
  jid : Int
  /-- UNDEF, BG, FG, or ST -/
  state : Int
  /-- command line -/
  cmdline : String
deriving DecidableEq

/-- Observable actions of the shell, in the order the program performs them. -/
inductive Effect where
  /-- one call of `printf` with the text it writes -/
  | print (s : String)
  /-- one call `kill(pid, sig)` -/
  | kill (pid sig : Int)
  /-- one call `waitfg(pid)`: the shell polls `fgpid(jobs) == pid` until a
  signal handler changes the job list -/
  | waitfg (pid : Int)
  /-- one call `fork()` with the value it returned in this process: the pid of the
  child it created when positive, 0 in the child itself, -1 when no child was
  created -/
  | fork (ret : Int)
deriving DecidableEq

/-- The global variables of `tsh.c` together with the actions performed so far. -/
structure Shell where
  /-- The job list `jobs[MAXJOBS]`. -/
  jobs : List job_t
  /-- next job ID to allocate -/
  nextjid : Int
  /-- if true (non-zero), print additional output -/
  verbose : Int
  /-- actions performed so far, oldest first -/
  trace : List Effect
deriving DecidableEq

/-- Append one action to the trace. -/
def Shell.emit (sh : Shell) (e : Effect) : Shell :=
  { sh with trace := sh.trace ++ [e] }

/-! ## Helper routines that manipulate the job list -/

/-- The loop `for (i = 0; i < MAXJOBS; i++) if (test(jobs[i])) return i;` shared by
the job-list routines: the index of the first slot passing `test`, counted from `i`,
or `none` when the loop runs to its end. -/
def scanFrom (test : job_t → Bool) : List job_t → Nat → Option Nat
  | [], _ => none
  | j :: js, i => if test j then some i else scanFrom test js (i + 1)

/-- The scan of the whole job list, from index 0. -/
def scan (test : job_t → Bool) (jobs : List job_t) : Option Nat :=
  scanFrom test jobs 0

/-- clearjob - Clear the entries in a job struct. -/
def clearjob (_job : job_t) : job_t :=
  { pid := 0, jid := 0, state := UNDEF, cmdline := "" }

/-- initjobs - Initialize the job list. -/
def initjobs (jobs : List job_t) : List job_t :=
  jobs.map clearjob

/-- maxjid - Returns largest allocated job ID. -/
def maxjid (jobs : List job_t) : Int :=
  jobs.foldl (fun max j => if j.jid > max then j.jid else max) 0

/-- addjob - Add a job to the job list.  Returns the C return value and the new
globals. -/
def addjob (sh : Shell) (pid state : Int) (cmdline : String) : Int × Shell :=
  if pid < 1 then (0, sh)
  else
    match scan (fun j => j.pid = 0) sh.jobs with
    | some i =>
      let job : job_t := { pid := pid, jid := sh.nextjid, state := state, cmdline := cmdline }
      let next := sh.nextjid + 1
      let sh1 : Shell :=
        { sh with jobs := sh.jobs.set i job,
                  nextjid := if next > (MAXJOBS : Int) then 1 else next }
      let sh2 : Shell :=
        if sh.verbose ≠ 0 then
          sh1.emit (.print ("Added job [" ++ toString job.jid ++ "] " ++ toString job.pid
            ++ " " ++ job.cmdline ++ "\n"))
        else sh1
      (1, sh2)
    | none => (0, sh.emit (.print "Tried to create too many jobs\n"))

/-- deletejob - Delete a job whose PID=pid from the job list. -/
def deletejob (sh : Shell) (pid : Int) : Int × Shell :=
  if pid < 1 then (0, sh)
  else
    match scan (fun j => j.pid = pid) sh.jobs with
    | some i =>
      let jobs1 := sh.jobs.modify clearjob i
      (1, { sh with jobs := jobs1, nextjid := maxjid jobs1 + 1 })
    | none => (0, sh)

/-- fgpid - Return PID of current foreground job, 0 if no such job. -/
def fgpid : List job_t → Int
  | [] => 0
  | j :: js => if j.state = FG then j.pid else fgpid js

/-- getjobpid - Find a job (by PID) on the job list. -/
def getjobpid (jobs : List job_t) (pid : Int) : Option Nat :=
  if pid < 1 then none
  else scan (fun j => j.pid = pid) jobs

/-- getjobjid - Find a job (by JID) on the job list. -/
def getjobjid (jobs : List job_t) (jid : Int) : Option Nat :=
  if jid < 1 then none
  else scan (fun j => j.jid = jid) jobs

/-! ## The C library conversion `atoi` -/

/-- Largest `long` of the platform (64 bits). -/
def LONG_MAX : Int := 2 ^ 63 - 1
/-- Smallest `long` of the platform (64 bits). -/
def LONG_MIN : Int := -(2 ^ 63)
/-- Largest `int` (32 bits). -/
def INT_MAX : Int := 2 ^ 31 - 1

/-- Conversion of a `long` to `int`: the low 32 bits, read as two's complement. -/
def toInt32 (x : Int) : Int := (x + 2 ^ 31) % 2 ^ 32 - 2 ^ 31

/-- The white-space characters of `isspace` in the C locale. -/
def isspace (c : Char) : Bool :=
  c = ' ' || c = '\t' || c = '\n' || c = '\x0b' || c = '\x0c' || c = '\r'

/-- The decimal digits of `isdigit`. -/
def isdigit (c : Char) : Bool := '0'.toNat ≤ c.toNat && c.toNat ≤ '9'.toNat

/-- Accumulate the leading decimal digits of a string, most significant first; the
scan stops at the first character that is not a digit. -/
def readDigits : Nat → List Char → Nat
  | acc, [] => acc
  | acc, c :: cs =>
    if isdigit c then readDigits (acc * 10 + (c.toNat - '0'.toNat)) cs else acc

/-- The conversion `strtol(s, NULL, 10)`: leading white space is skipped, an optional
sign is read, then the leading digits; a value outside `long` is replaced by the
nearest bound. -/
def strtol (s : List Char) : Int :=
  match s.dropWhile isspace with
  | [] => 0
  | c :: r =>
    if c = '-' then max LONG_MIN (-(readDigits 0 r : Int))
    else if c = '+' then min LONG_MAX (readDigits 0 r : Int)
    else min LONG_MAX (readDigits 0 (c :: r) : Int)

/-- The conversion `atoi(s)`, which is `(int) strtol(s, NULL, 10)`. -/
def atoi (s : List Char) : Int := toInt32 (strtol s)

/-! ## The built-in commands `bg` and `fg` -/

/-- The first part of `do_bgfg` once `argv[1]` is known to be present (the two
branches on `argv[1][0] == '%'`): the slot the argument designates, or the message
printed before the early `return`. -/
def do_bgfg_resolve (jobs : List job_t) (cmd arg : String) : Except String Nat :=
  if arg.data.head? = some '%' then
    let jid := atoi arg.data.tail
    if jid = 0 then .error (cmd ++ ": argument must be a PID or %jobid\n")
    else
      match getjobjid jobs jid with
      | none => .error (arg ++ ": No such job\n")
      | some i => .ok i
  else
    let pid := atoi arg.data
    if pid = 0 then .error (cmd ++ ": argument must be a PID or %jobid\n")
    else
      match getjobpid jobs pid with
      | none => .error ("(" ++ toString pid ++ "): No such process\n")
      | some i => .ok i

/-- do_bgfg - Execute the builtin bg and fg commands.  The result is `none` when
`argv[0]` is `NULL`, where the program reads past the end of the argument vector.
In the `fg` branch the call `waitfg(job->pid)` is recorded in the trace and the
globals are those at the moment the wait begins.  The pointer `job` is the index `i`
returned by the lookup, which always lies inside the list. -/
def do_bgfg (sh : Shell) (argv : List String) : Option Shell :=
  match argv with
  | [] => none
  | [cmd] => some (sh.emit (.print (cmd ++ " command requires PID or %jobid argument\n")))
  | cmd :: arg :: _ =>
    match do_bgfg_resolve sh.jobs cmd arg with
    | .error msg => some (sh.emit (.print msg))
    | .ok i =>
      match sh.jobs[i]? with
      | none => none
      | some job =>
        let sh1 := sh.emit (.kill job.pid SIGCONT)
        let sh2 : Shell :=
          if cmd = "fg" then
            ({ sh1 with jobs := sh1.jobs.set i { job with state := FG } }).emit (.waitfg job.pid)
          else sh1
        let sh3 : Shell :=
          if cmd = "bg" then
            ({ sh2 with jobs := sh2.jobs.set i { job with state := BG } }).emit
              (.print ("[" ++ toString job.jid ++ "] (" ++ toString job.pid ++ ") " ++ job.cmdline))
          else sh2
        some sh3

/-! ## More helper routines of the job list -/

/-- The loop of `pid2jid`: the job id of the first slot holding `pid`, 0 when the
loop runs to its end. -/
def pid2jidLoop (pid : Int) : List job_t → Int
  | [] => 0
  | j :: js => if j.pid = pid then j.jid else pid2jidLoop pid js

/-- pid2jid - Map process ID to job ID. -/
def pid2jid (jobs : List job_t) (pid : Int) : Int :=
  if pid < 1 then 0 else pid2jidLoop pid jobs

/-- The calls of `printf` that the body of the loop of `listjobs` makes for slot
`i`. -/
def listjobsSlot (i : Nat) (j : job_t) : List Effect :=
  if j.pid ≠ 0 then
    [Effect.print ("[" ++ toString j.jid ++ "] (" ++ toString j.pid ++ ") "),
     (if j.state = BG then Effect.print "Running "
      else if j.state = FG then Effect.print "Foreground "
      else if j.state = ST then Effect.print "Stopped "
      else Effect.print ("listjobs: Internal error: job[" ++ toString i ++ "].state="
        ++ toString j.state ++ " ")),
     Effect.print j.cmdline]
  else []

/-- The loop of `listjobs` over the slots from index `i` on. -/
def listjobsFrom : Nat → List job_t → List Effect
  | _, [] => []
  | i, j :: js => listjobsSlot i j ++ listjobsFrom (i + 1) js

/-- listjobs - Print the job list. -/
def listjobs (sh : Shell) : Shell :=
  { sh with trace := sh.trace ++ listjobsFrom 0 sh.jobs }

/-- The text written by the `printf` calls of a trace, in order. -/
def printed : List Effect → String
  | [] => ""
  | Effect.print s :: es => s ++ printed es
  | _ :: es => printed es

/-! ## Signal handlers -/

/-- sigint_handler - The kernel sends a SIGINT to the shell whenver the user types
ctrl-c at the keyboard.  Catch it and send it along to the foreground job. -/
def sigint_handler (sh : Shell) (sig : Int) : Shell :=
  let pid := fgpid sh.jobs
  if pid ≠ 0 then sh.emit (.kill (-pid) sig) else sh

/-- sigtstp_handler - The kernel sends a SIGTSTP to the shell whenever the user types
ctrl-z at the keyboard.  Catch it and suspend the foreground job by sending it a
SIGTSTP. -/
def sigtstp_handler (sh : Shell) (sig : Int) : Shell :=
  let pid := fgpid sh.jobs
  if pid ≠ 0 then sh.emit (.kill (-pid) sig) else sh

/-- What `waitpid` reports about a child in `status`: with the options `WNOHANG |
WUNTRACED` exactly one of `WIFEXITED`, `WIFSIGNALED`, `WIFSTOPPED` holds. -/
inductive Status where
  /-- `WIFEXITED`, with the exit code -/
  | exited (code : Int)
  /-- `WIFSIGNALED`, with `WTERMSIG` -/
  | signaled (sig : Int)
  /-- `WIFSTOPPED`, with `WSTOPSIG` -/
  | stopped (sig : Int)
deriving DecidableEq

/-- A change of state of a child of the shell that the kernel has not yet reported:
the child, its process group, and what happened to it. -/
structure ChildEvent where
  /-- process ID of the child -/
  pid : Int
  /-- process group ID of the child -/
  pgid : Int
  /-- the disposition `waitpid` will report -/
  status : Status
deriving DecidableEq

/-- The children a call `waitpid(target, ...)` made by a process of group `pgid`
accepts: any child for -1, the child `target` when positive, the children of the
caller's own group for 0, the children of group `-target` otherwise. -/
def waitpidAccepts (pgid target : Int) (e : ChildEvent) : Bool :=
  if target = -1 then true
  else if target > 0 then decide (e.pid = target)
  else if target = 0 then decide (e.pgid = pgid)
  else decide (e.pgid = -target)

/-- The call `waitpid(target, &status, WNOHANG | WUNTRACED)`: the first pending event of
an accepted child, taken off the pending events, or `none` when there is none (the
call then returns 0 or -1). -/
def waitpid (pgid target : Int) : List ChildEvent → Option (ChildEvent × List ChildEvent)
  | [] => none
  | e :: es =>
    if waitpidAccepts pgid target e then some (e, es)
    else (waitpid pgid target es).map (fun r => (r.1, e :: r.2))

/-- The body of the loop of `sigchld_handler` for one reaped `pid` and its
`status`. -/
def sigchld_reap (sh : Shell) (pid : Int) (status : Status) : Shell :=
  match getjobpid sh.jobs pid with
  | none => sh
  | some i =>
    match status with
    | .signaled sig =>
      (deletejob (sh.emit (.print ("Job [" ++ toString (pid2jid sh.jobs pid) ++ "] ("
        ++ toString pid ++ ") terminated by signal " ++ toString sig ++ "\n"))) pid).2
    | .stopped sig =>
      let jobs1 := sh.jobs.modify (fun job => { job with state := ST }) i
      ({ sh with jobs := jobs1 }).emit (.print ("Job [" ++ toString (pid2jid jobs1 pid)
        ++ "] (" ++ toString pid ++ ") stopped by signal " ++ toString sig ++ "\n"))
    | .exited _ => (deletejob sh pid).2

/-- The loop `while ((pid = waitpid(fgpid(jobs), &status, WNOHANG | WUNTRACED)) > 0)` of
`sigchld_handler`, run for at most `fuel` rounds; every round takes one event off the
pending ones. -/
def sigchld_loop (pgid : Int) : Nat → List ChildEvent → Shell → List ChildEvent × Shell
  | 0, pending, sh => (pending, sh)
  | fuel + 1, pending, sh =>
    match waitpid pgid (fgpid sh.jobs) pending with
    | none => (pending, sh)
    | some (e, rest) =>
      if e.pid > 0 then sigchld_loop pgid fuel rest (sigchld_reap sh e.pid e.status)
      else (rest, sh)

/-- sigchld_handler - The kernel sends a SIGCHLD to the shell whenever a child job
terminates (becomes a zombie), or stops because it received a SIGSTOP or SIGTSTP
signal.  The arguments are the process group of the shell and the events pending
when the handler runs; the result holds the events still pending at its return. -/
def sigchld_handler (pgid : Int) (pending : List ChildEvent) (sh : Shell) :
    List ChildEvent × Shell :=
  sigchld_loop pgid (pending.length + 1) pending sh

/-! ## The command line -/

/-- Capacity of the argument vector: `#define MAXARGS 128`. -/
def MAXARGS : Nat := 128

/-- Where the tokenizer of `parseline` stands: between arguments (skipping spaces),
inside an argument that ends at the next space, or inside an argument that began
with a single quote and ends at the next single quote.  The characters of the
argument read so far are kept last first. -/
inductive Mode where
  /-- `while (*buf && (*buf == ' ')) buf++;` -/
  | skip
  /-- after `delim = strchr(buf, ' ')` -/
  | word (acc : List Char)
  /-- after `buf++; delim = strchr(buf, '\'')` -/
  | quoted (acc : List Char)

/-- The arguments built by the loop `while (delim)` of `parseline`.  At the end of
the buffer `strchr` finds no delimiter, the loop stops, and an argument that was
begun is not stored. -/
def scanTokens : Mode → List Char → List String
  | _, [] => []
  | .skip, c :: cs =>
    if c = ' ' then scanTokens .skip cs
    else if c = '\'' then scanTokens (.quoted []) cs
    else scanTokens (.word [c]) cs
  | .word acc, c :: cs =>
    if c = ' ' then String.mk acc.reverse :: scanTokens .skip cs
    else scanTokens (.word (c :: acc)) cs
  | .quoted acc, c :: cs =>
    if c = '\'' then String.mk acc.reverse :: scanTokens .skip cs
    else scanTokens (.quoted (c :: acc)) cs

/-- The buffer of `parseline` after `buf[strlen(buf)-1] = ' '`, and the arguments its
loop stores in `argv[0]`, `argv[1]`, ... -/
def tokens (cmdline : String) : List String :=
  scanTokens .skip (cmdline.data.dropLast ++ [' '])

/-- parseline - Parse the command line and build the argv array.  The result is the
return value (true for a BG job) and the argument vector up to its terminating
`NULL`; it is `none` where the program writes outside its arrays: for the empty
string, and when there are `MAXARGS` arguments or more. -/
def parseline (cmdline : String) : Option (Bool × List String) :=
  if cmdline.data = [] then none
  else
    let argv := tokens cmdline
    if MAXARGS ≤ argv.length then none
    else
      match argv.getLast? with
      | none => some (true, [])
      | some last =>
        if last.data.head? = some '&' then some (true, argv.dropLast)
        else some (false, argv)

/-! ## The main flow: `eval` -/

/-- What the operating system decides for one run of `eval`. -/
structure Os where
  /-- the value `fork()` returns in the process that runs `eval` -/
  fork_ret : Int
  /-- whether `execve` can load the program -/
  execve_ok : Bool
  /-- process group of the shell -/
  pgid : Int
  /-- child events not yet reported -/
  pending : List ChildEvent

/-- How a function of the main flow ends. -/
inductive Flow (α : Type) where
  /-- it returned `val`, leaving the globals `sh` -/
  | ret (val : α) (sh : Shell)
  /-- it called `exit(code)` -/
  | exit (code : Int) (sh : Shell)
  /-- a call of `execve` succeeded: the process now runs the program of `argv` -/
  | exec (argv : List String) (sh : Shell)
  /-- it read through a `NULL` pointer or wrote outside an array -/
  | fault
deriving DecidableEq

/-- waitfg - Block until process pid is no longer the foreground process.  Only the
main flow is followed: the call is recorded and the globals are those at the moment
the wait begins. -/
def waitfg (sh : Shell) (pid : Int) : Shell :=
  sh.emit (.waitfg pid)

/-- builtin_cmd - If the user has typed a built-in command then execute it
immediately. -/
def builtin_cmd (os : Os) (sh : Shell) (argv : List String) : Flow Int :=
  match argv with
  | [] => .fault
  | cmd :: _ =>
    if cmd = "quit" then .exit 0 (sigchld_handler os.pgid os.pending sh).2
    else if cmd = "jobs" then .ret 1 (listjobs sh)
    else if cmd = "bg" then
      match do_bgfg sh argv with
      | none => .fault
      | some sh1 => .ret 1 sh1
    else if cmd = "fg" then
      match do_bgfg sh argv with
      | none => .fault
      | some sh1 => .ret 1 sh1
    else .ret 0 sh

/-- The tokens `<`, `>`, `2>`, `>>` that the child replaces by `NULL`. -/
def isRedirect (t : String) : Bool :=
  t = "<" || t = ">" || t = "2>" || t = ">>"

/-- The loop `while (argv[i] != NULL)` of the child runs to its end without leaving its
arrays: every redirection token is followed by a file name that fits the 64 bytes of
`in` and `out`, and there is no `|` (whose branch hands `execve` a vector without
terminating `NULL`). -/
def redirectScan : List String → Bool
  | [] => true
  | t :: rest =>
    if isRedirect t then
      match rest with
      | [] => false
      | f :: _ => decide (f.utf8ByteSize < 64) && redirectScan rest
    else if t = "|" then false
    else redirectScan rest

/-- The child side of `eval` (the branch `pid == 0`).  Process groups, the signal mask
and the files opened for redirection are outside the model; the vector `execve`
receives ends at the first token replaced by `NULL`. -/
def eval_child (os : Os) (sh : Shell) (argv : List String) : Flow Unit :=
  if redirectScan argv then
    match argv.takeWhile (fun t => !isRedirect t) with
    | [] => .fault
    | cmd :: args =>
      if os.execve_ok then .exec (cmd :: args) sh
      else .exit 0 (sh.emit (.print (cmd ++ ": Command not found\n")))
  else .fault

/-- eval - Evaluate the command line that the user has just typed in.  The test
`argv[0] == '/0'` compares a pointer with the integer 12080 and holds for no pointer
`parseline` stores, so it never returns.  The calls of `sigprocmask` are outside the
model.  As in `do_bgfg`, a call of `waitfg` is recorded and the flow goes on with the
globals as they are: what the signal handlers do meanwhile is not followed. -/
def eval (os : Os) (sh : Shell) (cmdline : String) : Flow Unit :=
  match parseline cmdline with
  | none => .fault
  | some (bg, argv) =>
    match builtin_cmd os sh argv with
    | .fault => .fault
    | .exit code sh1 => .exit code sh1
    | .exec v sh1 => .exec v sh1
    | .ret built sh1 =>
      match builtin_cmd os sh1 argv with
      | .fault => .fault
      | .exit code sh2 => .exit code sh2
      | .exec v sh2 => .exec v sh2
      | .ret again sh2 =>
        if again = 1 then .ret () sh2
        else if built = 0 then
          let pid := os.fork_ret
          let sh3 := sh2.emit (.fork pid)
          if pid = 0 then eval_child os sh3 argv
          else if bg = false then
            .ret () (waitfg (addjob sh3 pid FG cmdline).2 pid)
          else
            let sh4 := (addjob sh3 pid BG cmdline).2
            .ret () (sh4.emit (.print ("[" ++ toString (pid2jid sh4.jobs pid) ++ "] ("
              ++ toString pid ++ ") " ++ cmdline)))
        else .ret () sh2

/-! ## Sequences of job-list operations -/

/-- One call of a job-list mutator. -/
inductive JobOp where
  /-- a call `addjob(jobs, pid, state, cmdline)` -/
  | add (pid state : Int) (cmdline : String)
  /-- a call `deletejob(jobs, pid)` -/
  | del (pid : Int)
deriving DecidableEq

/-- Perform one job-list operation, dropping the return value. -/
def step (sh : Shell) : JobOp → Shell
  | .add pid state cmdline => (addjob sh pid state cmdline).2
  | .del pid => (deletejob sh pid).2

/-- Perform a sequence of job-list operations, first to last. -/
def run (sh : Shell) (ops : List JobOp) : Shell :=
  ops.foldl step sh

/-- The globals after `initjobs(jobs)` in `main`: every slot of the statically
allocated list cleared, `nextjid = 1`. -/
def initShell (verbose : Int) : Shell :=
  { jobs := initjobs (List.replicate MAXJOBS { pid := 0, jid := 0, state := 0, cmdline := "" }),
    nextjid := 1, verbose := verbose, trace := [] }

/-! ## Vocabulary of the statements -/

/-- Slot `i` is the lowest-index slot of the list that passes `test`. -/
def FirstSlot (test : job_t → Prop) (jobs : List job_t) (i : Nat) : Prop :=
  (∃ j, jobs[i]? = some j ∧ test j) ∧ ∀ n j, n < i → jobs[n]? = some j → ¬ test j

/-- The empty slot: pid 0, jid 0, state UNDEF, empty command line. -/
def emptySlot : job_t := { pid := 0, jid := 0, state := UNDEF, cmdline := "" }

/-- Number of slots whose state is `FG`. -/
def fgCount (jobs : List job_t) : Nat :=
  jobs.countP (fun j => j.state = FG)

/-- Every `addjob` of the sequence that passes state `FG` is made while no slot of
the list has state `FG`. -/
def fgGuarded : Shell → List JobOp → Bool
  | _, [] => true
  | sh, op :: ops =>
    (match op with
      | .add _ state _ => decide (state = FG → fgCount sh.jobs = 0)
      | .del _ => true) && fgGuarded (step sh op) ops

/-- The call returned after one `printf` of `msg` and nothing else: the job list and
`nextjid` are as before, and the only new entry of the trace is that print (so no
`kill` was made). -/
def PrintsOnly (sh : Shell) (msg : String) (r : Option Shell) : Prop :=
  ∃ sh', r = some sh' ∧ sh'.jobs = sh.jobs ∧ sh'.nextjid = sh.nextjid ∧
    sh'.trace = sh.trace ++ [Effect.print msg]

/-- A job list of 16 running background jobs, pids 101 to 116. -/
def fullShell : Shell :=
  run (initShell 0) ((List.range 16).map (fun k => JobOp.add (101 + k) BG "sleep 60 &\n"))

/-- Every `addjob` of the sequence is given a positive pid that no slot of the list
holds at that moment. -/
def freshAdds : Shell → List JobOp → Bool
  | _, [] => true
  | sh, op :: ops =>
    (match op with
      | .add pid _ _ => decide (1 ≤ pid) && sh.jobs.all (fun j => decide (j.pid ≠ pid))
      | .del _ => true) && freshAdds (step sh op) ops

/-- Sixteen background jobs are started (pids 101 to 116), the jobs with pids 102
and 103 terminate and are deleted, and two more jobs (pids 117 and 118) are
started. -/
def jidWrapOps : List JobOp :=
  (List.range 16).map (fun k => JobOp.add (101 + k) BG "sleep 60 &\n") ++
    [JobOp.del 102, JobOp.del 103,
     JobOp.add 117 BG "sleep 60 &\n", JobOp.add 118 BG "sleep 60 &\n"]

/-- A job list with two jobs in state `FG`, pids 101 and 102. -/
def twoFgShell : Shell :=
  run (initShell 0) [JobOp.add 101 FG "cat\n", JobOp.add 102 FG "vi\n"]

/-- The globals a function of the main flow leaves when it returns. -/
def Flow.returned {α : Type} : Flow α → Option Shell
  | .ret _ sh => some sh
  | _ => none

/-- The `printf` of `addjob` under `verbose`, as a list of trace entries. -/
def addedMsg (sh : Shell) (pid : Int) (cmdline : String) : List Effect :=
  if sh.verbose ≠ 0 then
    [Effect.print ("Added job [" ++ toString sh.nextjid ++ "] " ++ toString pid ++ " "
      ++ cmdline ++ "\n")]
  else []

/-- The command name is none of the built-in commands. -/
def NotBuiltin (cmd : String) : Prop :=
  cmd ≠ "quit" ∧ cmd ≠ "jobs" ∧ cmd ≠ "bg" ∧ cmd ≠ "fg"

/-- The operating system of the examples: `fork` returns `ret`, `execve` fails, the
shell is in process group 50 and no child event is pending. -/
def osWith (ret : Int) : Os :=
  { fork_ret := ret, execve_ok := false, pgid := 50, pending := [] }

/-- A job list with one background job (pid 101, job id 1). -/
def oneBgShell : Shell :=
  run (initShell 0) [JobOp.add 101 BG "sleep 60 &\n"]

/-- A job list with jobs in the three states: background (pid 101), foreground
(pid 102) and stopped (pid 103). -/
def threeStateShell : Shell :=
  run (initShell 0) [JobOp.add 101 BG "sleep 60 &\n", JobOp.add 102 FG "cat\n",
    JobOp.add 103 ST "vi notes\n"]

/-- A command line of 128 arguments. -/
def manyArgsLine : String :=
  String.join (List.replicate 128 "a ") ++ "\n"

/-- A blank command line: `n` spaces followed by a newline. -/
def blankLine (n : Nat) : String :=
  String.mk (List.replicate n ' ' ++ ['\n'])

/-- Slot consistency: pid, jid and state tell alike whether the slot is occupied, and
an occupied slot has a positive pid and a positive job id. -/
def SlotOk (j : job_t) : Prop :=
  (j.pid = 0 ↔ j.jid = 0) ∧ (j.jid = 0 ↔ j.state = UNDEF) ∧
    (j.pid ≠ 0 → 1 ≤ j.pid ∧ 1 ≤ j.jid)

/-- Every slot of the job list is consistent and `nextjid` is at least 1. -/
def Consistent (sh : Shell) : Prop :=
  (∀ j ∈ sh.jobs, SlotOk j) ∧ 1 ≤ sh.nextjid

/-- The globals the shell can reach from `initjobs` with `nextjid = 1` by `addjob` with
a pid of at least 1 and a state among `FG`, `BG`, `ST`, by `deletejob`, by a call of
`do_bgfg` that returns, and by the body of the reaper for one reaped child. -/
inductive Reachable : Shell → Prop where
  /-- the globals after `initjobs` -/
  | init (verbose : Int) : Reachable (initShell verbose)
  /-- a call of `addjob` -/
  | add (sh : Shell) (pid state : Int) (cmdline : String) :
      Reachable sh → 1 ≤ pid → (state = FG ∨ state = BG ∨ state = ST) →
      Reachable (addjob sh pid state cmdline).2
  /-- a call of `deletejob` -/
  | del (sh : Shell) (pid : Int) : Reachable sh → Reachable (deletejob sh pid).2
  /-- a call of `do_bgfg` -/
  | bgfg (sh : Shell) (argv : List String) (sh1 : Shell) :
      Reachable sh → do_bgfg sh argv = some sh1 → Reachable sh1
  /-- the reaper handling one reaped child -/
  | reap (sh : Shell) (pid : Int) (status : Status) :
      Reachable sh → Reachable (sigchld_reap sh pid status)

/-! ## Lemmas on the slot scan -/

theorem scanFrom_none (test : job_t → Bool) (jobs : List job_t) (k : Nat) :
    scanFrom test jobs k = none ↔ ∀ j ∈ jobs, test j = false := by
  induction jobs generalizing k with
  | nil => simp [scanFrom]
  | cons a l ih =>
    by_cases h : test a = true
    · simp [scanFrom, h]
    · simp [scanFrom, h, ih]

theorem scanFrom_some (test : job_t → Bool) (jobs : List job_t) (k i : Nat) :
    scanFrom test jobs k = some i ↔
      ∃ m, i = k + m ∧ (∃ j, jobs[m]? = some j ∧ test j = true) ∧
        ∀ n j, n < m → jobs[n]? = some j → test j = false := by
  induction jobs generalizing k with
  | nil => simp [scanFrom]
  | cons a l ih =>
    by_cases h : test a = true
    · simp only [scanFrom, h, if_true, Option.some.injEq]
      constructor
      · intro hk
        exact ⟨0, by omega, ⟨a, by simp, h⟩, fun n j hn => by omega⟩
      · rintro ⟨m, hm, -, hlow⟩
        cases m with
        | zero => omega
        | succ m =>
          have := hlow 0 a (by omega) (by simp)
          simp [h] at this
    · have hstep : scanFrom test (a :: l) k = scanFrom test l (k + 1) := by
        simp [scanFrom, h]
      rw [hstep, ih]
      constructor
      · rintro ⟨m, hm, ⟨j, hj, hjt⟩, hlow⟩
        refine ⟨m + 1, by omega, ⟨j, by simpa using hj, hjt⟩, ?_⟩
        intro n j' hn hj'
        cases n with
        | zero =>
          simp at hj'
          subst hj'
          simpa using h
        | succ n => exact hlow n j' (by omega) (by simpa using hj')
      · rintro ⟨m, hm, ⟨j, hj, hjt⟩, hlow⟩
        cases m with
        | zero =>
          simp at hj
          subst hj
          exact absurd hjt h
        | succ m =>
          refine ⟨m, by omega, ⟨j, by simpa using hj, hjt⟩, ?_⟩
          intro n j' hn hj'
          exact hlow (n + 1) j' (by omega) (by simpa using hj')

theorem scan_none (test : job_t → Bool) (jobs : List job_t) :
    scan test jobs = none ↔ ∀ j ∈ jobs, test j = false :=
  scanFrom_none test jobs 0

theorem scan_some (test : job_t → Bool) (jobs : List job_t) (i : Nat) :
    scan test jobs = some i ↔
      (∃ j, jobs[i]? = some j ∧ test j = true) ∧
        ∀ n j, n < i → jobs[n]? = some j → test j = false := by
  unfold scan
  rw [scanFrom_some]
  constructor
  · rintro ⟨m, hm, h⟩
    have : i = m := by omega
    subst this
    exact h
  · intro h
    exact ⟨i, by omega, h⟩

theorem scan_some_lt (test : job_t → Bool) (jobs : List job_t) (i : Nat)
    (h : scan test jobs = some i) : i < jobs.length := by
  obtain ⟨⟨j, hj, -⟩, -⟩ := (scan_some test jobs i).1 h
  by_contra hlt
  rw [List.getElem?_eq_none (by omega)] at hj
  cases hj

theorem scan_isSome (test : job_t → Bool) (jobs : List job_t) :
    (∃ i, scan test jobs = some i) ↔ ∃ j ∈ jobs, test j = true := by
  constructor
  · rintro ⟨i, hi⟩
    by_contra hne
    push_neg at hne
    have : scan test jobs = none := (scan_none test jobs).2 (by simpa using hne)
    rw [this] at hi
    cases hi
  · rintro ⟨j, hj, hjt⟩
    cases hs : scan test jobs with
    | some i => exact ⟨i, rfl⟩
    | none =>
      have := (scan_none test jobs).1 hs j hj
      rw [this] at hjt
      cases hjt

/-- The scan finds the lowest-index slot passing a decidable test. -/
theorem scan_some_iff_firstSlot (test : job_t → Prop) [DecidablePred test]
    (jobs : List job_t) (i : Nat) :
    scan (fun j => decide (test j)) jobs = some i ↔ FirstSlot test jobs i := by
  rw [scan_some]
  simp [FirstSlot]

/-! ## The job list: `addjob` -/

theorem addjob_fst_eq_zero (sh : Shell) (pid state : Int) (cmdline : String) :
    (addjob sh pid state cmdline).1 = 0 ↔ (pid < 1 ∨ ∀ j ∈ sh.jobs, j.pid ≠ 0) := by
  unfold addjob
  by_cases hp : pid < 1
  · simp [hp]
  · simp only [hp, if_false, false_or]
    cases hs : scan (fun j => decide (j.pid = 0)) sh.jobs with
    | none =>
      have := (scan_none _ _).1 hs
      simpa using this
    | some i =>
      obtain ⟨j, hj, hjt⟩ := (scan_isSome _ _).1 ⟨i, hs⟩
      simp only [one_ne_zero, false_iff]
      intro hall
      exact hall j hj (by simpa using hjt)

theorem addjob_rejected_unchanged (sh : Shell) (pid state : Int) (cmdline : String)
    (h : (addjob sh pid state cmdline).1 = 0) :
    (addjob sh pid state cmdline).2.jobs = sh.jobs ∧
      (addjob sh pid state cmdline).2.nextjid = sh.nextjid := by
  unfold addjob at h ⊢
  by_cases hp : pid < 1
  · simp [hp]
  · simp only [hp, if_false] at h ⊢
    cases hs : scan (fun j => decide (j.pid = 0)) sh.jobs with
    | none => simp [Shell.emit]
    | some i =>
      rw [hs] at h
      simp at h

/-- C1: `addjob` returns 0 exactly when `pid < 1` or no slot of the job list has
pid 0; whenever it returns 0 the job list and `nextjid` are as before the call; in
particular an add on a list whose 16 slots are all occupied returns 0 and leaves the
16 jobs as they were. -/
theorem addjob_rejects_iff (sh : Shell) (pid state : Int) (cmdline : String) :
    ((addjob sh pid state cmdline).1 = 0 ↔ (pid < 1 ∨ ∀ j ∈ sh.jobs, j.pid ≠ 0)) ∧
    ((addjob sh pid state cmdline).1 = 0 →
      (addjob sh pid state cmdline).2.jobs = sh.jobs ∧
      (addjob sh pid state cmdline).2.nextjid = sh.nextjid) ∧
    (sh.jobs.length = MAXJOBS → (∀ j ∈ sh.jobs, j.pid ≠ 0) →
      (addjob sh pid state cmdline).1 = 0 ∧
      (addjob sh pid state cmdline).2.jobs = sh.jobs ∧
      (addjob sh pid state cmdline).2.nextjid = sh.nextjid) := by
  refine ⟨addjob_fst_eq_zero sh pid state cmdline,
    addjob_rejected_unchanged sh pid state cmdline, ?_⟩
  intro _ hfull
  have h0 := (addjob_fst_eq_zero sh pid state cmdline).2 (Or.inr hfull)
  exact ⟨h0, addjob_rejected_unchanged sh pid state cmdline h0⟩

/-- C1 at a concrete input: a 17th job (pid 117) offered to the list of 16 background
jobs is rejected and the list is unchanged. -/
theorem addjob_rejects_iff_witness :
    fullShell.jobs.length = MAXJOBS ∧ (∀ j ∈ fullShell.jobs, j.pid ≠ 0) ∧
    (addjob fullShell 117 BG "sleep 5 &\n").1 = 0 ∧
    (addjob fullShell 117 BG "sleep 5 &\n").2.jobs = fullShell.jobs ∧
    (addjob fullShell 117 BG "sleep 5 &\n").2.nextjid = fullShell.nextjid :=
  ⟨by decide, by decide,
    (addjob_rejects_iff fullShell 117 BG "sleep 5 &\n").2.2 (by decide) (by decide)⟩

/-- C2 evaluated on the code: after sixteen jobs are added, two of them deleted and
two more added (every add with a fresh positive pid), slot 0 (pid 101) and slot 2
(pid 118) are both occupied and both carry job id 1: `deletejob` set `nextjid` to 17,
`addjob` handed out 17 and wrapped `nextjid` to 1 while job id 1 was still in use. -/
theorem jid_not_distinct_after_wrap :
    freshAdds (initShell 0) jidWrapOps = true ∧
    (run (initShell 0) (jidWrapOps.take 18)).nextjid = 17 ∧
    (run (initShell 0) (jidWrapOps.take 19)).nextjid = 1 ∧
    ((run (initShell 0) jidWrapOps).jobs.map (fun j => (j.pid, j.jid))).take 4
      = [(101, 1), (117, 17), (118, 1), (104, 4)] := by
  decide

/-! ## The job list: foreground slots -/

theorem countP_set_le (p : job_t → Bool) (a : job_t) (l : List job_t) (i : Nat) :
    (l.set i a).countP p ≤ l.countP p + (if p a then 1 else 0) := by
  induction l generalizing i with
  | nil => simp
  | cons b l ih =>
    cases i with
    | zero =>
      simp only [List.set_cons_zero, List.countP_cons]
      split <;> split <;> omega
    | succ i =>
      simp only [List.set_cons_succ, List.countP_cons]
      have := ih i
      omega

theorem countP_modify_le (p : job_t → Bool) (f : job_t → job_t) (hf : ∀ x, p (f x) = false)
    (l : List job_t) (i : Nat) : (l.modify f i).countP p ≤ l.countP p := by
  induction l generalizing i with
  | nil => cases i <;> simp [List.modify]
  | cons b l ih =>
    cases i with
    | zero =>
      simp [List.modify, List.modifyHead, List.countP_cons, hf]
    | succ i =>
      have := ih i
      simp only [List.modify_succ_cons, List.countP_cons]
      omega

theorem fgCount_addjob (sh : Shell) (pid state : Int) (cmdline : String) :
    fgCount (addjob sh pid state cmdline).2.jobs ≤
      fgCount sh.jobs + (if state = FG then 1 else 0) := by
  unfold addjob
  by_cases hp : pid < 1
  · simp [hp]
  · simp only [hp, if_false]
    cases hs : scan (fun j => decide (j.pid = 0)) sh.jobs with
    | none => simp [Shell.emit]
    | some i =>
      have := countP_set_le (fun j => decide (j.state = FG))
        { pid := pid, jid := sh.nextjid, state := state, cmdline := cmdline } sh.jobs i
      by_cases hv : sh.verbose = 0
      · simpa [hv, fgCount] using this
      · simpa [hv, fgCount, Shell.emit] using this

theorem fgCount_deletejob (sh : Shell) (pid : Int) :
    fgCount (deletejob sh pid).2.jobs ≤ fgCount sh.jobs := by
  unfold deletejob
  by_cases hp : pid < 1
  · simp [hp]
  · simp only [hp, if_false]
    cases hs : scan (fun j => decide (j.pid = pid)) sh.jobs with
    | none => simp
    | some i =>
      exact countP_modify_le _ clearjob (by intro x; simp [clearjob, UNDEF, FG]) sh.jobs i

theorem fgCount_run_le (ops : List JobOp) :
    ∀ sh : Shell, fgCount sh.jobs ≤ 1 → fgGuarded sh ops = true →
      fgCount (run sh ops).jobs ≤ 1 := by
  induction ops with
  | nil => intro sh h _; simpa [run] using h
  | cons op ops ih =>
    intro sh h hg
    simp only [fgGuarded, Bool.and_eq_true] at hg
    obtain ⟨hop, hrest⟩ := hg
    have hstep : fgCount (step sh op).jobs ≤ 1 := by
      cases op with
      | add pid state cmdline =>
        have := fgCount_addjob sh pid state cmdline
        simp only [decide_eq_true_eq] at hop
        simp only [step]
        by_cases hst : state = FG
        · have h0 : fgCount sh.jobs = 0 := hop hst
          rw [if_pos hst] at this
          omega
        · rw [if_neg hst] at this
          omega
      | del pid =>
        have := fgCount_deletejob sh pid
        simp only [step]
        omega
    simpa [run] using ih (step sh op) hstep hrest

theorem fgGuarded_take (ops : List JobOp) :
    ∀ (sh : Shell) (k : Nat), fgGuarded sh ops = true → fgGuarded sh (ops.take k) = true := by
  induction ops with
  | nil => intro sh k h; simpa using h
  | cons op ops ih =>
    intro sh k h
    cases k with
    | zero => simp [fgGuarded]
    | succ k =>
      simp only [fgGuarded, Bool.and_eq_true, List.take_succ_cons] at h ⊢
      exact ⟨h.1, ih _ k h.2⟩

/-- C3 as stated fails: two adds with state `FG` on the initialised list leave two
slots in state `FG`. -/
theorem two_foreground_slots :
    fgCount (run (initShell 0) [JobOp.add 101 FG "cat\n", JobOp.add 102 FG "vi\n"]).jobs = 2 ∧
    ¬ fgCount (run (initShell 0) [JobOp.add 101 FG "cat\n", JobOp.add 102 FG "vi\n"]).jobs ≤ 1 := by
  decide

/-- C3, amended: for every sequence of `addjob` and `deletejob` calls on the
initialised list in which `addjob` is given state `FG` only while no slot has state
`FG`, at most one slot has state `FG` after every operation of the sequence. -/
theorem at_most_one_foreground (verbose : Int) (ops : List JobOp)
    (h : fgGuarded (initShell verbose) ops = true) (k : Nat) :
    fgCount (run (initShell verbose) (ops.take k)).jobs ≤ 1 := by
  have h0 : fgCount (initShell verbose).jobs ≤ 1 := by
    show fgCount (initShell 0).jobs ≤ 1
    decide
  exact fgCount_run_le (ops.take k) (initShell verbose) h0
    (fgGuarded_take ops (initShell verbose) k h)

/-- C3, amended, at a concrete input: a foreground job is added, deleted, and a second
foreground job is added. -/
theorem at_most_one_foreground_witness :
    fgGuarded (initShell 0)
      [JobOp.add 101 FG "cat\n", JobOp.del 101, JobOp.add 102 FG "vi\n"] = true ∧
    fgCount (run (initShell 0)
      ([JobOp.add 101 FG "cat\n", JobOp.del 101, JobOp.add 102 FG "vi\n"].take 3)).jobs ≤ 1 :=
  ⟨by decide, at_most_one_foreground 0 _ (by decide) 3⟩

/-! ## The job list: the job id given by `addjob` -/

/-- C4 as stated fails: the second add on the initialised list returns 1, while the
job id it stores in the newly filled slot 1 is 2, the value of `nextjid` before the
call. -/
theorem addjob_returns_flag_not_jid :
    (addjob (initShell 0) 101 BG "sleep 60 &\n").2.nextjid = 2 ∧
    (addjob (addjob (initShell 0) 101 BG "sleep 60 &\n").2 102 BG "sleep 9 &\n").1 = 1 ∧
    (addjob (addjob (initShell 0) 101 BG "sleep 60 &\n").2 102 BG "sleep 9 &\n").2.jobs[1]?
      = some { pid := 102, jid := 2, state := BG, cmdline := "sleep 9 &\n" } ∧
    (addjob (addjob (initShell 0) 101 BG "sleep 60 &\n").2 102 BG "sleep 9 &\n").1 ≠ 2 := by
  decide

/-- C4, amended: for every successful add (`pid >= 1` and some slot has pid 0),
`addjob` returns 1; the job is stored in the lowest-index empty slot, and the job id
stored there is the value of `nextjid` immediately before the call; the other slots
are unchanged. -/
theorem addjob_success (sh : Shell) (pid state : Int) (cmdline : String)
    (hp : 1 ≤ pid) (hfree : ∃ j ∈ sh.jobs, j.pid = 0) :
    (addjob sh pid state cmdline).1 = 1 ∧
    ∃ i, FirstSlot (fun j => j.pid = 0) sh.jobs i ∧
      (addjob sh pid state cmdline).2.jobs[i]? =
        some { pid := pid, jid := sh.nextjid, state := state, cmdline := cmdline } ∧
      ∀ k, k ≠ i → (addjob sh pid state cmdline).2.jobs[k]? = sh.jobs[k]? := by
  obtain ⟨j, hj, hj0⟩ := hfree
  obtain ⟨i, hi⟩ := (scan_isSome (fun j => decide (j.pid = 0)) sh.jobs).2
    ⟨j, hj, by simpa using hj0⟩
  have hlt := scan_some_lt _ _ _ hi
  have hfirst := (scan_some_iff_firstSlot (fun j => j.pid = 0) sh.jobs i).1 hi
  have hnp : ¬ pid < 1 := by omega
  unfold addjob
  simp only [hnp, if_false, hi]
  refine ⟨trivial, i, hfirst, ?_, ?_⟩
  · by_cases hv : sh.verbose = 0
    · simp [hv, hlt]
    · simp [hv, hlt, Shell.emit]
  · intro k hk
    by_cases hv : sh.verbose = 0
    · simp [hv, List.getElem?_set_ne (Ne.symm hk)]
    · simp [hv, Shell.emit, List.getElem?_set_ne (Ne.symm hk)]

/-- C4, amended, at a concrete input: the second add on the initialised list. -/
theorem addjob_success_witness :
    (addjob (addjob (initShell 0) 101 BG "sleep 60 &\n").2 102 BG "sleep 9 &\n").1 = 1 ∧
    ∃ i, FirstSlot (fun j => j.pid = 0) (addjob (initShell 0) 101 BG "sleep 60 &\n").2.jobs i ∧
      (addjob (addjob (initShell 0) 101 BG "sleep 60 &\n").2 102 BG "sleep 9 &\n").2.jobs[i]? =
        some { pid := 102, jid := (addjob (initShell 0) 101 BG "sleep 60 &\n").2.nextjid,
               state := BG, cmdline := "sleep 9 &\n" } ∧
      ∀ k, k ≠ i →
        (addjob (addjob (initShell 0) 101 BG "sleep 60 &\n").2 102 BG "sleep 9 &\n").2.jobs[k]?
          = (addjob (initShell 0) 101 BG "sleep 60 &\n").2.jobs[k]? :=
  addjob_success (addjob (initShell 0) 101 BG "sleep 60 &\n").2 102 BG "sleep 9 &\n"
    (by decide) (by decide)

/-! ## The job list: `deletejob` and `maxjid` -/

theorem foldl_maxjid_spec (l : List job_t) (m : Int) :
    m ≤ l.foldl (fun max j => if j.jid > max then j.jid else max) m ∧
    (∀ j ∈ l, j.jid ≤ l.foldl (fun max j => if j.jid > max then j.jid else max) m) ∧
    (l.foldl (fun max j => if j.jid > max then j.jid else max) m = m ∨
      ∃ j ∈ l, j.jid = l.foldl (fun max j => if j.jid > max then j.jid else max) m) := by
  induction l generalizing m with
  | nil => simp
  | cons a l ih =>
    simp only [List.foldl_cons, List.mem_cons, forall_eq_or_imp, exists_eq_or_imp]
    obtain ⟨h1, h2, h3⟩ := ih (if a.jid > m then a.jid else m)
    by_cases ha : a.jid > m
    · simp only [ha, if_true] at h1 h2 h3 ⊢
      refine ⟨by omega, ⟨h1, h2⟩, ?_⟩
      rcases h3 with h3 | h3
      · exact Or.inr (Or.inl h3.symm)
      · exact Or.inr (Or.inr h3)
    · simp only [ha, if_false] at h1 h2 h3 ⊢
      refine ⟨h1, ⟨by omega, h2⟩, ?_⟩
      rcases h3 with h3 | h3
      · exact Or.inl h3
      · exact Or.inr (Or.inr h3)

/-- The value of `maxjid` is the greatest of 0 and the job ids of the slots. -/
theorem maxjid_spec (jobs : List job_t) :
    0 ≤ maxjid jobs ∧ (∀ j ∈ jobs, j.jid ≤ maxjid jobs) ∧
    (maxjid jobs = 0 ∨ ∃ j ∈ jobs, j.jid = maxjid jobs) :=
  foldl_maxjid_spec jobs 0

/-- C5: when `pid >= 1` and some slot holds `pid`, `deletejob` returns 1, clears the
lowest-index such slot to the empty slot, leaves every other slot as it was, and
sets `nextjid` to one more than the greatest job id left in the list (so to 1 when
every slot is then empty); when `pid < 1` or no slot holds `pid` it returns 0 and
changes nothing. -/
theorem deletejob_spec (sh : Shell) (pid : Int) :
    (1 ≤ pid → (∃ j ∈ sh.jobs, j.pid = pid) →
      (deletejob sh pid).1 = 1 ∧
      (∃ i, FirstSlot (fun j => j.pid = pid) sh.jobs i ∧
        (deletejob sh pid).2.jobs[i]? = some emptySlot ∧
        ∀ k, k ≠ i → (deletejob sh pid).2.jobs[k]? = sh.jobs[k]?) ∧
      (deletejob sh pid).2.jobs.length = sh.jobs.length ∧
      (deletejob sh pid).2.nextjid = maxjid (deletejob sh pid).2.jobs + 1 ∧
      (∀ j ∈ (deletejob sh pid).2.jobs, j.jid ≤ maxjid (deletejob sh pid).2.jobs) ∧
      (∃ j ∈ (deletejob sh pid).2.jobs, j.jid = maxjid (deletejob sh pid).2.jobs) ∧
      ((∀ j ∈ (deletejob sh pid).2.jobs, j = emptySlot) → (deletejob sh pid).2.nextjid = 1)) ∧
    ((pid < 1 ∨ ∀ j ∈ sh.jobs, j.pid ≠ pid) → deletejob sh pid = (0, sh)) := by
  constructor
  · intro hp ⟨j, hj, hjp⟩
    obtain ⟨i, hi⟩ := (scan_isSome (fun j => decide (j.pid = pid)) sh.jobs).2
      ⟨j, hj, by simpa using hjp⟩
    have hlt := scan_some_lt _ _ _ hi
    have hfirst := (scan_some_iff_firstSlot (fun j => j.pid = pid) sh.jobs i).1 hi
    have hnp : ¬ pid < 1 := by omega
    have hdel : deletejob sh pid =
        (1, { sh with jobs := sh.jobs.modify clearjob i,
                      nextjid := maxjid (sh.jobs.modify clearjob i) + 1 }) := by
      unfold deletejob
      simp only [hnp, if_false, hi]
    have hcleared : (sh.jobs.modify clearjob i)[i]? = some emptySlot := by
      rw [List.getElem?_modify_eq, List.getElem?_eq_getElem hlt]
      rfl
    have hmem : emptySlot ∈ sh.jobs.modify clearjob i :=
      List.getElem?_mem hcleared
    obtain ⟨h0, hle, hmax⟩ := maxjid_spec (sh.jobs.modify clearjob i)
    rw [hdel]
    refine ⟨rfl, ⟨i, hfirst, hcleared, ?_⟩, by simp, rfl, hle, ?_, ?_⟩
    · intro k hk
      exact List.getElem?_modify_ne clearjob sh.jobs (Ne.symm hk)
    · rcases hmax with hmax | hmax
      · exact ⟨emptySlot, hmem, by rw [hmax]; rfl⟩
      · exact hmax
    · intro hall
      show maxjid (sh.jobs.modify clearjob i) + 1 = 1
      rcases hmax with hmax | ⟨j', hj', hjm⟩
      · omega
      · have := hall j' hj'
        rw [this] at hjm
        have h00 : emptySlot.jid = 0 := rfl
        omega
  · intro h
    unfold deletejob
    rcases h with h | h
    · simp [h]
    · by_cases hp : pid < 1
      · simp [hp]
      · have : scan (fun j => decide (j.pid = pid)) sh.jobs = none :=
          (scan_none _ _).2 (by simpa using h)
        simp [hp, this]

/-- C5 at a concrete input: deleting pid 116 from, and then pid 200 (not tracked) on,
the list of 16 background jobs. -/
theorem deletejob_spec_witness :
    ((deletejob fullShell 116).1 = 1 ∧
      (∃ i, FirstSlot (fun j => j.pid = 116) fullShell.jobs i ∧
        (deletejob fullShell 116).2.jobs[i]? = some emptySlot ∧
        ∀ k, k ≠ i → (deletejob fullShell 116).2.jobs[k]? = fullShell.jobs[k]?) ∧
      (deletejob fullShell 116).2.jobs.length = fullShell.jobs.length ∧
      (deletejob fullShell 116).2.nextjid = maxjid (deletejob fullShell 116).2.jobs + 1 ∧
      (∀ j ∈ (deletejob fullShell 116).2.jobs, j.jid ≤ maxjid (deletejob fullShell 116).2.jobs) ∧
      (∃ j ∈ (deletejob fullShell 116).2.jobs, j.jid = maxjid (deletejob fullShell 116).2.jobs) ∧
      ((∀ j ∈ (deletejob fullShell 116).2.jobs, j = emptySlot) →
        (deletejob fullShell 116).2.nextjid = 1)) ∧
    deletejob fullShell 200 = (0, fullShell) :=
  ⟨(deletejob_spec fullShell 116).1 (by decide) (by decide),
   (deletejob_spec fullShell 200).2 (Or.inr (by decide))⟩

/-! ## The job list: lookups -/

/-- C6: `getjobpid` returns `NULL` for `pid < 1`; for `pid >= 1` it returns the
lowest-index slot whose pid is the argument, and `NULL` exactly when no slot has that
pid; likewise `getjobjid` with the job id.  Both are functions of the list alone and
return no new list. -/
theorem getjob_spec (jobs : List job_t) (pid jid : Int) :
    (pid < 1 → getjobpid jobs pid = none) ∧
    (1 ≤ pid → ∀ i, getjobpid jobs pid = some i ↔ FirstSlot (fun j => j.pid = pid) jobs i) ∧
    (1 ≤ pid → (getjobpid jobs pid = none ↔ ∀ j ∈ jobs, j.pid ≠ pid)) ∧
    (jid < 1 → getjobjid jobs jid = none) ∧
    (1 ≤ jid → ∀ i, getjobjid jobs jid = some i ↔ FirstSlot (fun j => j.jid = jid) jobs i) ∧
    (1 ≤ jid → (getjobjid jobs jid = none ↔ ∀ j ∈ jobs, j.jid ≠ jid)) := by
  refine ⟨?_, ?_, ?_, ?_, ?_, ?_⟩
  · intro h
    simp [getjobpid, h]
  · intro h i
    have hn : ¬ pid < 1 := by omega
    simp only [getjobpid, hn, if_false]
    exact scan_some_iff_firstSlot (fun j => j.pid = pid) jobs i
  · intro h
    have hn : ¬ pid < 1 := by omega
    simp only [getjobpid, hn, if_false]
    rw [scan_none]
    simp
  · intro h
    simp [getjobjid, h]
  · intro h i
    have hn : ¬ jid < 1 := by omega
    simp only [getjobjid, hn, if_false]
    exact scan_some_iff_firstSlot (fun j => j.jid = jid) jobs i
  · intro h
    have hn : ¬ jid < 1 := by omega
    simp only [getjobjid, hn, if_false]
    rw [scan_none]
    simp

/-- C6 at a concrete input: pid 105 and job id 5 on the list of 16 background jobs
are both found in slot 4; job id 17 is not found. -/
theorem getjob_spec_witness :
    (getjobpid fullShell.jobs 105 = some 4 ↔ FirstSlot (fun j => j.pid = 105) fullShell.jobs 4) ∧
    getjobpid fullShell.jobs 105 = some 4 ∧
    (getjobjid fullShell.jobs 5 = some 4 ↔ FirstSlot (fun j => j.jid = 5) fullShell.jobs 4) ∧
    getjobjid fullShell.jobs 5 = some 4 ∧
    getjobjid fullShell.jobs 17 = none ∧
    getjobpid fullShell.jobs (-3) = none :=
  ⟨(getjob_spec fullShell.jobs 105 5).2.1 (by decide) 4, by decide,
   (getjob_spec fullShell.jobs 105 5).2.2.2.2.1 (by decide) 4, by decide,
   ((getjob_spec fullShell.jobs 105 17).2.2.2.2.2 (by decide)).2 (by decide),
   (getjob_spec fullShell.jobs (-3) 5).1 (by decide)⟩

/-! ## The job list: `fgpid` -/

theorem fgpid_eq_zero_of_none (jobs : List job_t) (h : ∀ j ∈ jobs, j.state ≠ FG) :
    fgpid jobs = 0 := by
  induction jobs with
  | nil => rfl
  | cons a l ih =>
    have ha : a.state ≠ FG := h a (by simp)
    simp only [fgpid, ha, if_false]
    exact ih (fun j hj => h j (by simp [hj]))

/-- The value of `fgpid` is the pid of the lowest-index slot in state `FG`, when there
is one. -/
theorem fgpid_first (jobs : List job_t) :
    (∀ j ∈ jobs, j.state ≠ FG) ∨
    ∃ i j, FirstSlot (fun j => j.state = FG) jobs i ∧ jobs[i]? = some j ∧ j.state = FG ∧
      fgpid jobs = j.pid := by
  induction jobs with
  | nil => left; simp
  | cons a l ih =>
    by_cases ha : a.state = FG
    · right
      refine ⟨0, a, ⟨⟨a, by simp, ha⟩, fun n j hn => by omega⟩, by simp, ha, ?_⟩
      simp [fgpid, ha]
    · rcases ih with ih | ⟨i, j, ⟨-, hlow⟩, hj, hjs, hfg⟩
      · left
        intro j hj
        rcases List.mem_cons.1 hj with rfl | hj
        · exact ha
        · exact ih j hj
      · right
        refine ⟨i + 1, j, ⟨⟨j, by simpa using hj, hjs⟩, ?_⟩, by simpa using hj, hjs, ?_⟩
        · intro n j' hn hj'
          cases n with
          | zero =>
            simp at hj'
            subst hj'
            exact ha
          | succ n => exact hlow n j' (by omega) (by simpa using hj')
        · simp [fgpid, ha, hfg]

/-- The value of `fgpid` on any list of slots: it is 0 when no slot has state `FG`; when
the slots in state `FG` all have a non-zero pid, it is 0 if and only if no slot has
state `FG`; and when exactly one slot has state `FG` it is the pid of that slot. -/
theorem fgpid_spec (jobs : List job_t) :
    ((∀ j ∈ jobs, j.state ≠ FG) → fgpid jobs = 0) ∧
    ((∀ j ∈ jobs, j.state = FG → j.pid ≠ 0) →
      (fgpid jobs = 0 ↔ ∀ j ∈ jobs, j.state ≠ FG)) ∧
    (fgCount jobs = 1 → ∀ j ∈ jobs, j.state = FG → fgpid jobs = j.pid) := by
  refine ⟨fgpid_eq_zero_of_none jobs, ?_, ?_⟩
  · intro hpid
    constructor
    · intro h0
      rcases fgpid_first jobs with hnone | ⟨i, j, -, hj, hjs, hfg⟩
      · exact hnone
      · exact absurd (hfg ▸ h0) (hpid j (List.getElem?_mem hj) hjs)
    · exact fgpid_eq_zero_of_none jobs
  · intro hone j hj hjs
    rcases fgpid_first jobs with hnone | ⟨i, j', -, hj', hjs', hfg⟩
    · exact absurd hjs (hnone j hj)
    · have hlen : (jobs.filter (fun j => decide (j.state = FG))).length = 1 := by
        rw [← List.countP_eq_length_filter]
        exact hone
      obtain ⟨x, hx⟩ := List.length_eq_one.1 hlen
      have h1 : j ∈ jobs.filter (fun j => decide (j.state = FG)) := by
        simp [List.mem_filter, hj, hjs]
      have h2 : j' ∈ jobs.filter (fun j => decide (j.state = FG)) := by
        simp [List.mem_filter, List.getElem?_mem hj', hjs']
      rw [hx] at h1 h2
      simp only [List.mem_singleton] at h1 h2
      rw [hfg, h1, h2]

/-! ## The conversion `atoi` on printed numbers -/

theorem digitChar_props (d : Nat) (h : d < 10) :
    isdigit (Nat.digitChar d) = true ∧ (Nat.digitChar d).toNat - '0'.toNat = d ∧
    isspace (Nat.digitChar d) = false ∧ Nat.digitChar d ≠ '%' ∧
    Nat.digitChar d ≠ '-' ∧ Nat.digitChar d ≠ '+' := by
  interval_cases d <;> decide

theorem toDigitsCore_read (fuel : Nat) :
    ∀ (n : Nat) (ds : List Char), n < fuel →
      ∃ c pre, Nat.toDigitsCore 10 fuel n ds = c :: (pre ++ ds) ∧
        (∃ d, d < 10 ∧ c = Nat.digitChar d) ∧
        ∀ acc rest, readDigits acc (c :: (pre ++ rest)) =
          readDigits (acc * 10 ^ (pre.length + 1) + n) rest := by
  induction fuel with
  | zero => intro n ds h; omega
  | succ fuel ih =>
    intro n ds h
    have hmod : n % 10 < 10 := Nat.mod_lt _ (by omega)
    obtain ⟨hd1, hd2, -⟩ := digitChar_props (n % 10) hmod
    by_cases h0 : n / 10 = 0
    · refine ⟨Nat.digitChar (n % 10), [], ?_, ⟨n % 10, hmod, rfl⟩, ?_⟩
      · simp [Nat.toDigitsCore, h0]
      · intro acc rest
        have hn : n % 10 = n := Nat.mod_eq_of_lt (by omega)
        have hstep : readDigits acc (Nat.digitChar (n % 10) :: rest) =
            readDigits (acc * 10 + n % 10) rest := by
          simp only [readDigits, hd1, if_true, hd2]
        rw [hn] at hstep
        simpa [hn] using hstep
    · obtain ⟨c, pre, hcore, hc, hread⟩ := ih (n / 10) (Nat.digitChar (n % 10) :: ds) (by omega)
      refine ⟨c, pre ++ [Nat.digitChar (n % 10)], ?_, hc, ?_⟩
      · simp [Nat.toDigitsCore, h0, hcore]
      · intro acc rest
        have hstep : ∀ a, readDigits a (Nat.digitChar (n % 10) :: rest) =
            readDigits (a * 10 + n % 10) rest := by
          intro a
          simp only [readDigits, hd1, if_true, hd2]
        have hlist : c :: (pre ++ [Nat.digitChar (n % 10)] ++ rest) =
            c :: (pre ++ Nat.digitChar (n % 10) :: rest) := by simp
        rw [hlist, hread acc (Nat.digitChar (n % 10) :: rest), hstep]
        congr 1
        have hdm := Nat.div_add_mod n 10
        simp only [List.length_append, List.length_singleton]
        have hpow : 10 ^ (pre.length + 1 + 1) = 10 ^ (pre.length + 1) * 10 := pow_succ _ _
        rw [hpow]
        generalize 10 ^ (pre.length + 1) = P
        have : (acc * P + n / 10) * 10 = acc * (P * 10) + 10 * (n / 10) := by ring
        rw [this, ← mul_assoc]
        omega

/-- Reading back the decimal digits printed for a natural number. -/
theorem repr_data (n : Nat) :
    ∃ c pre, (toString n).data = c :: pre ∧ isspace c = false ∧ c ≠ '%' ∧ c ≠ '-' ∧ c ≠ '+' ∧
      readDigits 0 (c :: pre) = n := by
  obtain ⟨c, pre, hcore, ⟨d, hd, hcd⟩, hread⟩ := toDigitsCore_read (n + 1) n [] (by omega)
  obtain ⟨-, -, h3, h4, h5, h6⟩ := digitChar_props d hd
  refine ⟨c, pre, ?_, hcd ▸ h3, hcd ▸ h4, hcd ▸ h5, hcd ▸ h6, ?_⟩
  · have : (toString n).data = Nat.toDigitsCore 10 (n + 1) n [] := rfl
    rw [this, hcore]
    simp
  · have := hread 0 []
    simpa [readDigits] using this

theorem toInt32_of_nonneg_le (x : Int) (h0 : 0 ≤ x) (h1 : x ≤ INT_MAX) : toInt32 x = x := by
  unfold toInt32
  unfold INT_MAX at h1
  norm_num at h1 ⊢
  omega

/-- The conversion `atoi` reads back the decimal digits of a natural number that
fits in an `int`. -/
theorem atoi_toString (n : Nat) (h : (n : Int) ≤ INT_MAX) :
    atoi (toString n).data = n ∧ (toString n).data.head? ≠ some '%' := by
  obtain ⟨c, pre, hdata, hsp, hpc, hm, hpl, hread⟩ := repr_data n
  constructor
  · have hlong : ((n : Int)) ≤ LONG_MAX := by
      unfold INT_MAX at h
      unfold LONG_MAX
      norm_num at h ⊢
      omega
    have hst : strtol (toString n).data = n := by
      unfold strtol
      rw [hdata]
      simp only [List.dropWhile_cons, hsp, Bool.false_eq_true, if_false, hm, hpl, hread]
      exact min_eq_right hlong
    unfold atoi
    rw [hst]
    exact toInt32_of_nonneg_le _ (by omega) h
  · rw [hdata]
    simpa using hpc

/-! ## `do_bgfg`: the error paths -/

theorem printsOnly_emit (sh : Shell) (msg : String) :
    PrintsOnly sh msg (some (sh.emit (.print msg))) :=
  ⟨_, rfl, rfl, rfl, rfl⟩

/-- C8, amended: with no argument `do_bgfg` prints "<cmd> command requires PID or
%jobid argument"; for the argument `%` followed by the decimal digits of a positive
integer `n <= INT_MAX` that is the job id of no slot it prints "%n: No such job"; for
the decimal digits of a positive integer `p <= INT_MAX` that is the pid of no slot it
prints "(p): No such process"; in each case the job list and `nextjid` are unchanged
and no signal is sent. -/
theorem do_bgfg_errors (sh : Shell) (cmd : String) (rest : List String) :
    PrintsOnly sh (cmd ++ " command requires PID or %jobid argument\n") (do_bgfg sh [cmd]) ∧
    (∀ n : Nat, 0 < n → (n : Int) ≤ INT_MAX → (∀ j ∈ sh.jobs, j.jid ≠ n) →
      PrintsOnly sh ("%" ++ toString n ++ ": No such job\n")
        (do_bgfg sh (cmd :: ("%" ++ toString n) :: rest))) ∧
    (∀ p : Nat, 0 < p → (p : Int) ≤ INT_MAX → (∀ j ∈ sh.jobs, j.pid ≠ p) →
      PrintsOnly sh ("(" ++ toString p ++ "): No such process\n")
        (do_bgfg sh (cmd :: toString p :: rest))) := by
  refine ⟨printsOnly_emit _ _, ?_, ?_⟩
  · intro n hn hmax hnone
    obtain ⟨hval, -⟩ := atoi_toString n hmax
    have hres : do_bgfg_resolve sh.jobs cmd ("%" ++ toString n) =
        .error ("%" ++ toString n ++ ": No such job\n") := by
      have hdata : ("%" ++ toString n).data = '%' :: (toString n).data := rfl
      have hne : ((n : Int)) ≠ 0 := by omega
      have hnl : ¬ ((n : Int)) < 1 := by omega
      have hscan : scan (fun j => decide (j.jid = (n : Int))) sh.jobs = none :=
        (scan_none _ _).2 (by simpa using hnone)
      simp [do_bgfg_resolve, hdata, hval, hne, getjobjid, hnl, hscan]
    simp only [do_bgfg, hres]
    exact printsOnly_emit _ _
  · intro p hp hmax hnone
    obtain ⟨hval, hhead⟩ := atoi_toString p hmax
    have hres : do_bgfg_resolve sh.jobs cmd (toString p) =
        .error ("(" ++ toString p ++ "): No such process\n") := by
      have hne : ((p : Int)) ≠ 0 := by omega
      have hnl : ¬ ((p : Int)) < 1 := by omega
      have hscan : scan (fun j => decide (j.pid = (p : Int))) sh.jobs = none :=
        (scan_none _ _).2 (by simpa using hnone)
      have hstr : toString ((p : Nat) : Int) = toString p := rfl
      simp [do_bgfg_resolve, hhead, hval, hne, getjobpid, hnl, hscan, hstr]
    simp only [do_bgfg, hres]
    exact printsOnly_emit _ _

/-- C8, amended, at concrete inputs: `fg 9999` on the list of 16 background jobs and
`bg %9` on a list holding job 1 only. -/
theorem do_bgfg_errors_witness :
    PrintsOnly fullShell "(9999): No such process\n" (do_bgfg fullShell ["fg", "9999"]) ∧
    PrintsOnly (run (initShell 0) [JobOp.add 101 BG "sleep 60 &\n"]) "%9: No such job\n"
      (do_bgfg (run (initShell 0) [JobOp.add 101 BG "sleep 60 &\n"]) ["bg", "%9"]) :=
  ⟨(do_bgfg_errors fullShell "fg" []).2.2 9999 (by decide) (by decide) (by decide),
   (do_bgfg_errors (run (initShell 0) [JobOp.add 101 BG "sleep 60 &\n"]) "bg" []).2.1 9
     (by decide) (by decide) (by decide)⟩

/-- C8 as stated fails for numbers that do not fit in an `int`: 4294967296 is the job
id of no slot, yet `bg %4294967296` prints the format error, because `atoi` yields 0;
4294967397 is the pid of no slot, yet `fg 4294967397` sends SIGCONT to pid 101 and
puts that job in state `FG`, because `atoi` yields 101. -/
theorem do_bgfg_number_beyond_int :
    (∀ j ∈ fullShell.jobs, j.jid ≠ 4294967296) ∧
    (do_bgfg fullShell ["bg", "%4294967296"]).map Shell.trace
      = some [Effect.print "bg: argument must be a PID or %jobid\n"] ∧
    (∀ j ∈ fullShell.jobs, j.pid ≠ 4294967397) ∧
    (do_bgfg fullShell ["fg", "4294967397"]).map Shell.trace
      = some [Effect.kill 101 SIGCONT, Effect.waitfg 101] ∧
    ((do_bgfg fullShell ["fg", "4294967397"]).bind (fun s => s.jobs[0]?)).map job_t.state
      = some FG := by
  decide

/-! ## `do_bgfg`: arguments with text after the number -/

/-- C9 evaluated on the code: on the list of 16 background jobs `fg 103abc` prints no
format error but sends SIGCONT to pid 103 and changes that job from `BG` to `FG`;
`bg %1x` resumes job 1; `fg -5` prints "(-5): No such process". -/
theorem do_bgfg_trailing_text :
    (do_bgfg fullShell ["fg", "103abc"]).map Shell.trace
      = some [Effect.kill 103 SIGCONT, Effect.waitfg 103] ∧
    (fullShell.jobs[2]?).map job_t.state = some BG ∧
    ((do_bgfg fullShell ["fg", "103abc"]).bind (fun s => s.jobs[2]?)).map job_t.state
      = some FG ∧
    (do_bgfg fullShell ["bg", "%1x"]).map Shell.trace
      = some [Effect.kill 101 SIGCONT, Effect.print "[1] (101) sleep 60 &\n"] ∧
    (do_bgfg fullShell ["fg", "-5"]).map Shell.trace
      = some [Effect.print "(-5): No such process\n"] := by
  decide


/-! ## `do_bgfg`: the resolved job -/

theorem do_bgfg_resolve_lt (jobs : List job_t) (cmd arg : String) (i : Nat)
    (h : do_bgfg_resolve jobs cmd arg = .ok i) : i < jobs.length := by
  unfold do_bgfg_resolve at h
  split at h
  · simp only at h
    split at h
    · cases h
    · cases hg : getjobjid jobs (atoi arg.data.tail) with
      | none => rw [hg] at h; cases h
      | some k =>
        rw [hg] at h
        simp only [Except.ok.injEq] at h
        subst h
        unfold getjobjid at hg
        split at hg
        · cases hg
        · exact scan_some_lt _ _ _ hg
  · simp only at h
    split at h
    · cases h
    · cases hg : getjobpid jobs (atoi arg.data) with
      | none => rw [hg] at h; cases h
      | some k =>
        rw [hg] at h
        simp only [Except.ok.injEq] at h
        subst h
        unfold getjobpid at hg
        split at hg
        · cases hg
        · exact scan_some_lt _ _ _ hg

/-- C10: when the argument resolves to slot `i` holding `job`, `do_bgfg` returns;
for `fg` it sends SIGCONT, sets the state of slot `i` to `FG` and then calls
`waitfg(job.pid)`; for `bg` it sends SIGCONT, sets the state of slot `i` to `BG` and
prints "[jid] (pid) cmdline" of that job; in both cases pid, jid and command line of
slot `i`, every other slot and `nextjid` are unchanged. -/
theorem do_bgfg_resolved (sh : Shell) (cmd arg : String) (rest : List String) (i : Nat)
    (h : do_bgfg_resolve sh.jobs cmd arg = .ok i) :
    ∃ job, sh.jobs[i]? = some job ∧
      (cmd = "fg" → ∃ sh', do_bgfg sh (cmd :: arg :: rest) = some sh' ∧
        sh'.jobs[i]? = some { pid := job.pid, jid := job.jid, state := FG,
                              cmdline := job.cmdline } ∧
        (∀ k, k ≠ i → sh'.jobs[k]? = sh.jobs[k]?) ∧
        sh'.jobs.length = sh.jobs.length ∧
        sh'.nextjid = sh.nextjid ∧
        sh'.trace = sh.trace ++ [Effect.kill job.pid SIGCONT, Effect.waitfg job.pid]) ∧
      (cmd = "bg" → ∃ sh', do_bgfg sh (cmd :: arg :: rest) = some sh' ∧
        sh'.jobs[i]? = some { pid := job.pid, jid := job.jid, state := BG,
                              cmdline := job.cmdline } ∧
        (∀ k, k ≠ i → sh'.jobs[k]? = sh.jobs[k]?) ∧
        sh'.jobs.length = sh.jobs.length ∧
        sh'.nextjid = sh.nextjid ∧
        sh'.trace = sh.trace ++ [Effect.kill job.pid SIGCONT,
          Effect.print ("[" ++ toString job.jid ++ "] (" ++ toString job.pid ++ ") "
            ++ job.cmdline)]) := by
  have hlt := do_bgfg_resolve_lt sh.jobs cmd arg i h
  refine ⟨sh.jobs[i], List.getElem?_eq_getElem hlt, ?_, ?_⟩
  · intro hcmd
    subst hcmd
    have hrun : do_bgfg sh ("fg" :: arg :: rest) = some
        { jobs := sh.jobs.set i { pid := sh.jobs[i].pid, jid := sh.jobs[i].jid, state := FG,
                                  cmdline := sh.jobs[i].cmdline },
          nextjid := sh.nextjid, verbose := sh.verbose,
          trace := sh.trace ++ [Effect.kill sh.jobs[i].pid SIGCONT,
            Effect.waitfg sh.jobs[i].pid] } := by
      simp [do_bgfg, h, List.getElem?_eq_getElem hlt, Shell.emit]
    refine ⟨_, hrun, ?_, ?_, ?_, rfl, rfl⟩
    · simp [hlt]
    · intro k hk
      simp [List.getElem?_set_ne (Ne.symm hk)]
    · simp
  · intro hcmd
    subst hcmd
    have hrun : do_bgfg sh ("bg" :: arg :: rest) = some
        { jobs := sh.jobs.set i { pid := sh.jobs[i].pid, jid := sh.jobs[i].jid, state := BG,
                                  cmdline := sh.jobs[i].cmdline },
          nextjid := sh.nextjid, verbose := sh.verbose,
          trace := sh.trace ++ [Effect.kill sh.jobs[i].pid SIGCONT,
            Effect.print ("[" ++ toString sh.jobs[i].jid ++ "] (" ++ toString sh.jobs[i].pid
              ++ ") " ++ sh.jobs[i].cmdline)] } := by
      simp [do_bgfg, h, List.getElem?_eq_getElem hlt, Shell.emit]
    refine ⟨_, hrun, ?_, ?_, ?_, rfl, rfl⟩
    · simp [hlt]
    · intro k hk
      simp [List.getElem?_set_ne (Ne.symm hk)]
    · simp

/-- C10 at a concrete input: `bg %5` on the list of 16 background jobs resolves to
slot 4. -/
theorem do_bgfg_resolved_witness :
    ∃ job, fullShell.jobs[4]? = some job ∧
      ("bg" = "fg" → ∃ sh', do_bgfg fullShell ("bg" :: "%5" :: []) = some sh' ∧
        sh'.jobs[4]? = some { pid := job.pid, jid := job.jid, state := FG,
                              cmdline := job.cmdline } ∧
        (∀ k, k ≠ 4 → sh'.jobs[k]? = fullShell.jobs[k]?) ∧
        sh'.jobs.length = fullShell.jobs.length ∧
        sh'.nextjid = fullShell.nextjid ∧
        sh'.trace = fullShell.trace ++ [Effect.kill job.pid SIGCONT, Effect.waitfg job.pid]) ∧
      ("bg" = "bg" → ∃ sh', do_bgfg fullShell ("bg" :: "%5" :: []) = some sh' ∧
        sh'.jobs[4]? = some { pid := job.pid, jid := job.jid, state := BG,
                              cmdline := job.cmdline } ∧
        (∀ k, k ≠ 4 → sh'.jobs[k]? = fullShell.jobs[k]?) ∧
        sh'.jobs.length = fullShell.jobs.length ∧
        sh'.nextjid = fullShell.nextjid ∧
        sh'.trace = fullShell.trace ++ [Effect.kill job.pid SIGCONT,
          Effect.print ("[" ++ toString job.jid ++ "] (" ++ toString job.pid ++ ") "
            ++ job.cmdline)]) :=
  do_bgfg_resolved fullShell "bg" "%5" [] 4 (by rfl)

/-! ## `do_bgfg`: the target of SIGCONT -/

/-- C11 evaluated on the code: on the list of 16 background jobs `bg %5` and `fg 105`
each send one SIGCONT, and its target is the single process 105, not the process
group -105; the handler `sigint_handler`, run after `fg 105`, does signal the group
-105. -/
theorem do_bgfg_signals_single_process :
    (do_bgfg fullShell ["bg", "%5"]).map Shell.trace
      = some [Effect.kill 105 SIGCONT, Effect.print "[5] (105) sleep 60 &\n"] ∧
    (do_bgfg fullShell ["fg", "105"]).map Shell.trace
      = some [Effect.kill 105 SIGCONT, Effect.waitfg 105] ∧
    (do_bgfg fullShell ["fg", "105"]).map Shell.trace
      ≠ some [Effect.kill (-105) SIGCONT, Effect.waitfg 105] ∧
    (do_bgfg fullShell ["fg", "105"]).map (fun sh => (sigint_handler sh 2).trace)
      = some [Effect.kill 105 SIGCONT, Effect.waitfg 105, Effect.kill (-105) 2] := by
  decide

/-! ## Signal router -/

theorem fgpid_of_unique (jobs : List job_t) (h1 : fgCount jobs ≤ 1) (j : job_t)
    (hj : j ∈ jobs) (hjs : j.state = FG) : fgpid jobs = j.pid := by
  rcases fgpid_first jobs with hnone | ⟨i, j', -, hj', hjs', hfg⟩
  · exact absurd hjs (hnone j hj)
  · have hpos : 0 < fgCount jobs := by
      unfold fgCount
      rw [List.countP_pos_iff]
      exact ⟨j, hj, by simpa using hjs⟩
    have hlen : (jobs.filter (fun j => decide (j.state = FG))).length = 1 := by
      rw [← List.countP_eq_length_filter]
      unfold fgCount at h1 hpos
      omega
    obtain ⟨x, hx⟩ := List.length_eq_one.1 hlen
    have h1' : j ∈ jobs.filter (fun j => decide (j.state = FG)) := by
      simp [List.mem_filter, hj, hjs]
    have h2' : j' ∈ jobs.filter (fun j => decide (j.state = FG)) := by
      simp [List.mem_filter, List.getElem?_mem hj', hjs']
    rw [hx] at h1' h2'
    simp only [List.mem_singleton] at h1' h2'
    rw [hfg, h1', h2']

/-- C12 as stated fails: on a list with two jobs in state `FG` (pids 101 and 102) a
foreground job with pid 102 exists, yet both handlers signal the group -101 only. -/
theorem signal_to_first_foreground_only :
    (∃ j ∈ twoFgShell.jobs, j.state = FG ∧ j.pid = 102) ∧
    (sigint_handler twoFgShell 2).trace = [Effect.kill (-101) 2] ∧
    (sigtstp_handler twoFgShell 20).trace = [Effect.kill (-101) 20] ∧
    (sigint_handler twoFgShell 2).trace ≠ twoFgShell.trace ++ [Effect.kill (-102) 2] := by
  decide

/-- C12, amended: both handlers leave the job list and `nextjid` unchanged; on a job
list with at most one slot in state `FG`, a foreground job with pid `p`, `p` not 0,
makes each handler send exactly the received signal to the group `-p` and nothing
else; when no slot has state `FG` the handlers send nothing. -/
theorem signal_router_spec (sh : Shell) (sig : Int) :
    ((sigint_handler sh sig).jobs = sh.jobs ∧ (sigint_handler sh sig).nextjid = sh.nextjid ∧
      (sigtstp_handler sh sig).jobs = sh.jobs ∧ (sigtstp_handler sh sig).nextjid = sh.nextjid) ∧
    (fgCount sh.jobs ≤ 1 → ∀ j ∈ sh.jobs, j.state = FG → j.pid ≠ 0 →
      (sigint_handler sh sig).trace = sh.trace ++ [Effect.kill (-j.pid) sig] ∧
      (sigtstp_handler sh sig).trace = sh.trace ++ [Effect.kill (-j.pid) sig]) ∧
    ((∀ j ∈ sh.jobs, j.state ≠ FG) →
      (sigint_handler sh sig).trace = sh.trace ∧ (sigtstp_handler sh sig).trace = sh.trace) := by
  refine ⟨?_, ?_, ?_⟩
  · unfold sigint_handler sigtstp_handler
    by_cases h : fgpid sh.jobs = 0 <;> simp [h, Shell.emit]
  · intro h1 j hj hjs hp
    have hfg := fgpid_of_unique sh.jobs h1 j hj hjs
    unfold sigint_handler sigtstp_handler
    simp [hfg, hp, Shell.emit]
  · intro hnone
    have hfg := fgpid_eq_zero_of_none sh.jobs hnone
    unfold sigint_handler sigtstp_handler
    simp [hfg]

/-- C12, amended, at a concrete input: one foreground job (pid 103) beside a
background job. -/
theorem signal_router_spec_witness :
    (sigint_handler (run (initShell 0) [JobOp.add 101 BG "a &\n", JobOp.add 103 FG "b\n"]) 2).trace
      = (run (initShell 0) [JobOp.add 101 BG "a &\n", JobOp.add 103 FG "b\n"]).trace
        ++ [Effect.kill (-103) 2] ∧
    (sigtstp_handler (run (initShell 0) [JobOp.add 101 BG "a &\n", JobOp.add 103 FG "b\n"]) 2).trace
      = (run (initShell 0) [JobOp.add 101 BG "a &\n", JobOp.add 103 FG "b\n"]).trace
        ++ [Effect.kill (-103) 2] :=
  (signal_router_spec (run (initShell 0) [JobOp.add 101 BG "a &\n", JobOp.add 103 FG "b\n"]) 2).2.1
    (by decide) { pid := 103, jid := 2, state := FG, cmdline := "b\n" } (by decide) (by decide)
    (by decide)


/-! ## Reaper -/

theorem pid2jidLoop_first (pid : Int) (jobs : List job_t) :
    ∀ (i : Nat) (job : job_t), FirstSlot (fun j => j.pid = pid) jobs i → jobs[i]? = some job →
      pid2jidLoop pid jobs = job.jid := by
  induction jobs with
  | nil => intro i job _ hj; simp at hj
  | cons a l ih =>
    intro i job hfirst hj
    cases i with
    | zero =>
      simp at hj
      subst hj
      obtain ⟨⟨j, hj0, hjp⟩, -⟩ := hfirst
      simp at hj0
      subst hj0
      simp [pid2jidLoop, hjp]
    | succ i =>
      obtain ⟨⟨j, hj0, hjp⟩, hlow⟩ := hfirst
      have ha : ¬ a.pid = pid := hlow 0 a (by omega) (by simp)
      simp only [pid2jidLoop, ha, if_false]
      refine ih i job ⟨⟨j, by simpa using hj0, hjp⟩, ?_⟩ (by simpa using hj)
      intro n j' hn hj'
      exact hlow (n + 1) j' (by omega) (by simpa using hj')

theorem pid2jid_first (pid : Int) (hp : 1 ≤ pid) (jobs : List job_t) (i : Nat) (job : job_t)
    (hfirst : FirstSlot (fun j => j.pid = pid) jobs i) (hj : jobs[i]? = some job) :
    pid2jid jobs pid = job.jid := by
  have hn : ¬ pid < 1 := by omega
  simp only [pid2jid, hn, if_false]
  exact pid2jidLoop_first pid jobs i job hfirst hj

theorem deletejob_of_scan (sh : Shell) (pid : Int) (hp : 1 ≤ pid) (i : Nat)
    (hi : scan (fun j => decide (j.pid = pid)) sh.jobs = some i) :
    deletejob sh pid =
      (1, { sh with jobs := sh.jobs.modify clearjob i,
                    nextjid := maxjid (sh.jobs.modify clearjob i) + 1 }) := by
  have hnp : ¬ pid < 1 := by omega
  unfold deletejob
  simp only [hnp, if_false, hi]

/-- C13: for a reaped `pid >= 1` held by a slot, with `i` the lowest such slot and
`job` its content: termination by signal prints "Job [jid] (pid) terminated by signal
N" with the job id of `job` and clears slot `i`; a normal exit clears slot `i` and
prints nothing; a stop sets the state of slot `i` to `ST`, keeps its pid, jid and
command line, and prints "Job [jid] (pid) stopped by signal N"; the other slots are
unchanged in all three cases. -/
theorem sigchld_reap_spec (sh : Shell) (pid : Int) (hp : 1 ≤ pid)
    (htracked : ∃ j ∈ sh.jobs, j.pid = pid) :
    ∃ i job, FirstSlot (fun j => j.pid = pid) sh.jobs i ∧ sh.jobs[i]? = some job ∧
      (∀ sig,
        (sigchld_reap sh pid (.signaled sig)).jobs[i]? = some emptySlot ∧
        (∀ k, k ≠ i → (sigchld_reap sh pid (.signaled sig)).jobs[k]? = sh.jobs[k]?) ∧
        (sigchld_reap sh pid (.signaled sig)).trace = sh.trace ++
          [Effect.print ("Job [" ++ toString job.jid ++ "] (" ++ toString pid
            ++ ") terminated by signal " ++ toString sig ++ "\n")]) ∧
      (∀ code,
        (sigchld_reap sh pid (.exited code)).jobs[i]? = some emptySlot ∧
        (∀ k, k ≠ i → (sigchld_reap sh pid (.exited code)).jobs[k]? = sh.jobs[k]?) ∧
        (sigchld_reap sh pid (.exited code)).trace = sh.trace) ∧
      (∀ sig,
        (sigchld_reap sh pid (.stopped sig)).jobs[i]? =
          some { pid := job.pid, jid := job.jid, state := ST, cmdline := job.cmdline } ∧
        (∀ k, k ≠ i → (sigchld_reap sh pid (.stopped sig)).jobs[k]? = sh.jobs[k]?) ∧
        (sigchld_reap sh pid (.stopped sig)).nextjid = sh.nextjid ∧
        (sigchld_reap sh pid (.stopped sig)).trace = sh.trace ++
          [Effect.print ("Job [" ++ toString job.jid ++ "] (" ++ toString pid
            ++ ") stopped by signal " ++ toString sig ++ "\n")]) := by
  obtain ⟨j, hj, hjp⟩ := htracked
  obtain ⟨i, hi⟩ := (scan_isSome (fun j => decide (j.pid = pid)) sh.jobs).2
    ⟨j, hj, by simpa using hjp⟩
  have hlt := scan_some_lt _ _ _ hi
  have hfirst := (scan_some_iff_firstSlot (fun j => j.pid = pid) sh.jobs i).1 hi
  have hjob : sh.jobs[i]? = some sh.jobs[i] := List.getElem?_eq_getElem hlt
  have hnp : ¬ pid < 1 := by omega
  have hget : getjobpid sh.jobs pid = some i := by
    simp only [getjobpid, hnp, if_false, hi]
  have hjid := pid2jid_first pid hp sh.jobs i sh.jobs[i] hfirst hjob
  have hcleared : (sh.jobs.modify clearjob i)[i]? = some emptySlot := by
    rw [List.getElem?_modify_eq, hjob]
    rfl
  refine ⟨i, sh.jobs[i], hfirst, hjob, ?_, ?_, ?_⟩
  · intro sig
    have hrun : sigchld_reap sh pid (.signaled sig) =
        (deletejob (sh.emit (.print ("Job [" ++ toString sh.jobs[i].jid ++ "] ("
          ++ toString pid ++ ") terminated by signal " ++ toString sig ++ "\n"))) pid).2 := by
      simp only [sigchld_reap, hget, hjid]
    have hdel := fun (e : Effect) => deletejob_of_scan (sh.emit e) pid hp i hi
    rw [hrun, hdel]
    refine ⟨hcleared, ?_, rfl⟩
    intro k hk
    exact List.getElem?_modify_ne clearjob sh.jobs (Ne.symm hk)
  · intro code
    have hrun : sigchld_reap sh pid (.exited code) = (deletejob sh pid).2 := by
      simp only [sigchld_reap, hget]
    rw [hrun, deletejob_of_scan sh pid hp i hi]
    refine ⟨hcleared, ?_, rfl⟩
    intro k hk
    exact List.getElem?_modify_ne clearjob sh.jobs (Ne.symm hk)
  · intro sig
    have hmod : (sh.jobs.modify (fun job => { job with state := ST }) i)[i]? =
        some { pid := sh.jobs[i].pid, jid := sh.jobs[i].jid, state := ST,
               cmdline := sh.jobs[i].cmdline } := by
      rw [List.getElem?_modify_eq, hjob]
      rfl
    have hfirst' : FirstSlot (fun j => j.pid = pid)
        (sh.jobs.modify (fun job => { job with state := ST }) i) i := by
      obtain ⟨⟨j0, hj0, hj0p⟩, hlow⟩ := hfirst
      rw [hjob] at hj0
      cases hj0
      refine ⟨⟨_, hmod, hj0p⟩, ?_⟩
      intro n j' hn hj'
      rw [List.getElem?_modify_ne _ _ (by omega)] at hj'
      exact hlow n j' hn hj'
    have hjid' := pid2jid_first pid hp _ i _ hfirst' hmod
    have hrun : sigchld_reap sh pid (.stopped sig) =
        ({ sh with jobs := sh.jobs.modify (fun job => { job with state := ST }) i }).emit
          (.print ("Job [" ++ toString sh.jobs[i].jid ++ "] (" ++ toString pid
            ++ ") stopped by signal " ++ toString sig ++ "\n")) := by
      simp only [sigchld_reap, hget, hjid']
    rw [hrun]
    refine ⟨hmod, ?_, rfl, rfl⟩
    intro k hk
    exact List.getElem?_modify_ne _ sh.jobs (Ne.symm hk)

/-- C13 at a concrete input: pid 105 of the list of 16 background jobs. -/
theorem sigchld_reap_spec_witness :
    ∃ i job, FirstSlot (fun j => j.pid = 105) fullShell.jobs i ∧ fullShell.jobs[i]? = some job ∧
      (∀ sig,
        (sigchld_reap fullShell 105 (.signaled sig)).jobs[i]? = some emptySlot ∧
        (∀ k, k ≠ i → (sigchld_reap fullShell 105 (.signaled sig)).jobs[k]? = fullShell.jobs[k]?) ∧
        (sigchld_reap fullShell 105 (.signaled sig)).trace = fullShell.trace ++
          [Effect.print ("Job [" ++ toString job.jid ++ "] (" ++ toString (105 : Int)
            ++ ") terminated by signal " ++ toString sig ++ "\n")]) ∧
      (∀ code,
        (sigchld_reap fullShell 105 (.exited code)).jobs[i]? = some emptySlot ∧
        (∀ k, k ≠ i → (sigchld_reap fullShell 105 (.exited code)).jobs[k]? = fullShell.jobs[k]?) ∧
        (sigchld_reap fullShell 105 (.exited code)).trace = fullShell.trace) ∧
      (∀ sig,
        (sigchld_reap fullShell 105 (.stopped sig)).jobs[i]? =
          some { pid := job.pid, jid := job.jid, state := ST, cmdline := job.cmdline } ∧
        (∀ k, k ≠ i → (sigchld_reap fullShell 105 (.stopped sig)).jobs[k]? = fullShell.jobs[k]?) ∧
        (sigchld_reap fullShell 105 (.stopped sig)).nextjid = fullShell.nextjid ∧
        (sigchld_reap fullShell 105 (.stopped sig)).trace = fullShell.trace ++
          [Effect.print ("Job [" ++ toString job.jid ++ "] (" ++ toString (105 : Int)
            ++ ") stopped by signal " ++ toString sig ++ "\n")]) :=
  sigchld_reap_spec fullShell 105 (by decide) (by decide)


theorem waitpid_length (pgid target : Int) (pending : List ChildEvent) (e : ChildEvent)
    (rest : List ChildEvent) (h : waitpid pgid target pending = some (e, rest)) :
    rest.length + 1 = pending.length := by
  induction pending generalizing rest with
  | nil => simp [waitpid] at h
  | cons a l ih =>
    unfold waitpid at h
    by_cases ha : waitpidAccepts pgid target a = true
    · simp only [ha, if_true, Option.some.injEq, Prod.mk.injEq] at h
      obtain ⟨-, rfl⟩ := h
      simp
    · simp only [ha, if_false, Option.map_eq_some', Bool.false_eq_true] at h
      obtain ⟨⟨e', r'⟩, hr, heq⟩ := h
      simp only [Prod.mk.injEq] at heq
      obtain ⟨rfl, rfl⟩ := heq
      have := ih r' hr
      simp only [List.length_cons]
      omega

/-- The loop of `sigchld_handler` ends by its own test: with more rounds allowed than
there are pending events, the result does not depend on the number of rounds. -/
theorem sigchld_loop_fuel (pgid : Int) (fuel : Nat) :
    ∀ (pending : List ChildEvent) (sh : Shell), pending.length < fuel →
      sigchld_loop pgid fuel pending sh = sigchld_loop pgid (pending.length + 1) pending sh := by
  induction fuel with
  | zero => intro pending sh h; omega
  | succ fuel ih =>
    intro pending sh h
    simp only [sigchld_loop]
    cases hw : waitpid pgid (fgpid sh.jobs) pending with
    | none => rfl
    | some r =>
      obtain ⟨e, rest⟩ := r
      have hlen := waitpid_length pgid _ pending e rest hw
      by_cases hpos : e.pid > 0
      · simp only [hpos, if_true]
        rw [ih rest _ (by omega)]
        have h2 : pending.length = rest.length + 1 := by omega
        rw [h2]
      · simp only [hpos, if_false]

/-- C14 evaluated on the code: with no foreground job, two background children
(pids 101 and 102, each in its own process group) that have terminated are both left
pending and both left in the job list by one run of the handler; with pid 101 in the
foreground, only that child is reaped and removed, and the terminated background
child 102 stays in the list. -/
theorem sigchld_misses_background_children :
    sigchld_handler 50
        [{ pid := 101, pgid := 101, status := .exited 0 },
         { pid := 102, pgid := 102, status := .signaled 9 }]
        (run (initShell 0) [JobOp.add 101 BG "sleep 1 &\n", JobOp.add 102 BG "sleep 2 &\n"])
      = ([{ pid := 101, pgid := 101, status := .exited 0 },
          { pid := 102, pgid := 102, status := .signaled 9 }],
         run (initShell 0) [JobOp.add 101 BG "sleep 1 &\n", JobOp.add 102 BG "sleep 2 &\n"]) ∧
    (sigchld_handler 50
        [{ pid := 101, pgid := 101, status := .exited 0 },
         { pid := 102, pgid := 102, status := .exited 0 }]
        (run (initShell 0) [JobOp.add 101 FG "sleep 1\n", JobOp.add 102 BG "sleep 2 &\n"])).1
      = [{ pid := 102, pgid := 102, status := .exited 0 }] ∧
    ((sigchld_handler 50
        [{ pid := 101, pgid := 101, status := .exited 0 },
         { pid := 102, pgid := 102, status := .exited 0 }]
        (run (initShell 0) [JobOp.add 101 FG "sleep 1\n", JobOp.add 102 BG "sleep 2 &\n"])).2.jobs.map
          job_t.pid).take 3 = [0, 102, 0] := by
  decide


/-! ## `listjobs` -/

theorem listjobsFrom_eq (jobs : List job_t) :
    ∀ i, listjobsFrom i jobs =
      ((jobs.enumFrom i).map (fun p => listjobsSlot p.1 p.2)).flatten := by
  induction jobs with
  | nil => intro i; simp [listjobsFrom]
  | cons a l ih =>
    intro i
    simp [listjobsFrom, List.enumFrom_cons, ih (i + 1)]

/-- C15: `listjobs` leaves the job list and `nextjid` unchanged; what it prints is, slot
after slot in increasing order, nothing for a slot with pid 0 and, for a slot with
non-zero pid, "[jid] (pid) " followed by "Running " in state `BG`, "Foreground " in
state `FG`, "Stopped " in state `ST`, followed by the command line. -/
theorem listjobs_spec (sh : Shell) :
    ((listjobs sh).jobs = sh.jobs ∧ (listjobs sh).nextjid = sh.nextjid) ∧
    (listjobs sh).trace = sh.trace ++
      ((sh.jobs.enum).map (fun p => listjobsSlot p.1 p.2)).flatten ∧
    (∀ (i : Nat) (j : job_t),
      (j.pid = 0 → listjobsSlot i j = []) ∧
      (j.pid ≠ 0 → j.state = BG → printed (listjobsSlot i j) =
        "[" ++ toString j.jid ++ "] (" ++ toString j.pid ++ ") " ++ ("Running " ++ j.cmdline)) ∧
      (j.pid ≠ 0 → j.state = FG → printed (listjobsSlot i j) =
        "[" ++ toString j.jid ++ "] (" ++ toString j.pid ++ ") " ++ ("Foreground " ++ j.cmdline)) ∧
      (j.pid ≠ 0 → j.state = ST → printed (listjobsSlot i j) =
        "[" ++ toString j.jid ++ "] (" ++ toString j.pid ++ ") " ++ ("Stopped " ++ j.cmdline))) := by
  refine ⟨⟨rfl, rfl⟩, ?_, ?_⟩
  · simp only [listjobs, listjobsFrom_eq, List.enum]
  · intro i j
    refine ⟨?_, ?_, ?_, ?_⟩
    · intro h
      simp [listjobsSlot, h]
    · intro hp hs
      simp [listjobsSlot, hp, hs, printed]
    · intro hp hs
      have h1 : ¬ (FG = BG) := by decide
      simp [listjobsSlot, hp, hs, printed, h1]
    · intro hp hs
      have h1 : ¬ (ST = BG) := by decide
      have h2 : ¬ (ST = FG) := by decide
      simp [listjobsSlot, hp, hs, printed, h1, h2]


/-- C15 at a concrete input: a background, a foreground and a stopped job. -/
theorem listjobs_spec_witness :
    printed (listjobsSlot 0 { pid := 101, jid := 1, state := BG, cmdline := "sleep 60 &\n" })
      = "[1] (101) Running sleep 60 &\n" ∧
    printed (listjobs threeStateShell).trace
      = "[1] (101) Running sleep 60 &\n[2] (102) Foreground cat\n[3] (103) Stopped vi notes\n" :=
  ⟨((listjobs_spec threeStateShell).2.2 0
      { pid := 101, jid := 1, state := BG, cmdline := "sleep 60 &\n" }).2.1
      (by decide) (by decide), by decide⟩

/-! ## `eval`: launching a command -/

theorem builtin_cmd_other (os : Os) (sh : Shell) (cmd : String) (args : List String)
    (h : NotBuiltin cmd) : builtin_cmd os sh (cmd :: args) = .ret 0 sh := by
  obtain ⟨h1, h2, h3, h4⟩ := h
  simp [builtin_cmd, h1, h2, h3, h4]

theorem eval_launch (os : Os) (sh : Shell) (cmdline : String) (bg : Bool) (cmd : String)
    (args : List String) (hparse : parseline cmdline = some (bg, cmd :: args))
    (hcmd : NotBuiltin cmd) :
    eval os sh cmdline =
      if os.fork_ret = 0 then eval_child os (sh.emit (.fork os.fork_ret)) (cmd :: args)
      else if bg = false then
        .ret () (waitfg (addjob (sh.emit (.fork os.fork_ret)) os.fork_ret FG cmdline).2
          os.fork_ret)
      else
        .ret () ((addjob (sh.emit (.fork os.fork_ret)) os.fork_ret BG cmdline).2.emit
          (.print ("[" ++ toString (pid2jid
            (addjob (sh.emit (.fork os.fork_ret)) os.fork_ret BG cmdline).2.jobs os.fork_ret)
            ++ "] (" ++ toString os.fork_ret ++ ") " ++ cmdline))) := by
  simp [eval, hparse, builtin_cmd_other os sh cmd args hcmd]

theorem addjob_of_scan (sh : Shell) (pid state : Int) (cmdline : String) (hp : 1 ≤ pid)
    (i : Nat) (hi : scan (fun j => decide (j.pid = 0)) sh.jobs = some i) :
    addjob sh pid state cmdline =
      (1, { jobs := sh.jobs.set i { pid := pid, jid := sh.nextjid, state := state,
                                    cmdline := cmdline },
            nextjid := if sh.nextjid + 1 > (MAXJOBS : Int) then 1 else sh.nextjid + 1,
            verbose := sh.verbose,
            trace := sh.trace ++ addedMsg sh pid cmdline }) := by
  have hnp : ¬ pid < 1 := by omega
  unfold addjob
  simp only [hnp, if_false, hi]
  by_cases hv : sh.verbose = 0
  · simp [hv, addedMsg]
  · simp [hv, addedMsg, Shell.emit]


/-- C16: for a command that is not built in, when `fork` returns the pid `p > 0` of the
child it created (a new process: no slot holds `p`, since the pid of a tracked job
belongs to a child not yet reaped, which the kernel does not give out again) and
some slot is empty, `eval` returns after storing in the
lowest empty slot the job with pid `p`, job id `nextjid`, the command line, and
state `FG` without `&`, `BG` with it; no other slot changes and no other slot holds
`p`; for `FG` the last action is `waitfg(p)`; for `BG` the last action is the print
of "[jid] (p) cmdline" with the job id just assigned, and there is no wait. -/
theorem eval_parent_spec (os : Os) (sh : Shell) (cmdline : String) (bg : Bool) (cmd : String)
    (args : List String) (hparse : parseline cmdline = some (bg, cmd :: args))
    (hcmd : NotBuiltin cmd) (hpid : 0 < os.fork_ret)
    (hfree : ∃ j ∈ sh.jobs, j.pid = 0) (hfresh : ∀ j ∈ sh.jobs, j.pid ≠ os.fork_ret) :
    ∃ i sh', FirstSlot (fun j => j.pid = 0) sh.jobs i ∧ eval os sh cmdline = .ret () sh' ∧
      sh'.jobs[i]? = some { pid := os.fork_ret, jid := sh.nextjid,
                            state := if bg = false then FG else BG, cmdline := cmdline } ∧
      (∀ k, k ≠ i → sh'.jobs[k]? = sh.jobs[k]?) ∧
      (∀ k j, sh'.jobs[k]? = some j → j.pid = os.fork_ret → k = i) ∧
      (bg = false → sh'.trace = sh.trace ++ [Effect.fork os.fork_ret]
        ++ addedMsg sh os.fork_ret cmdline ++ [Effect.waitfg os.fork_ret]) ∧
      (bg = true → sh'.trace = sh.trace ++ [Effect.fork os.fork_ret]
        ++ addedMsg sh os.fork_ret cmdline
        ++ [Effect.print ("[" ++ toString sh.nextjid ++ "] (" ++ toString os.fork_ret ++ ") "
              ++ cmdline)]) := by
  obtain ⟨j, hj, hj0⟩ := hfree
  obtain ⟨i, hi⟩ := (scan_isSome (fun j => decide (j.pid = 0)) sh.jobs).2
    ⟨j, hj, by simpa using hj0⟩
  have hlt := scan_some_lt _ _ _ hi
  have hfirst := (scan_some_iff_firstSlot (fun j => j.pid = 0) sh.jobs i).1 hi
  have hp1 : 1 ≤ os.fork_ret := by omega
  have hne : ¬ os.fork_ret = 0 := by omega
  have hadd := fun (st : Int) =>
    addjob_of_scan (sh.emit (.fork os.fork_ret)) os.fork_ret st cmdline hp1 i hi
  have hothers : ∀ (st : Int) (k : Nat), k ≠ i →
      (sh.jobs.set i { pid := os.fork_ret, jid := sh.nextjid, state := st,
                       cmdline := cmdline })[k]? = sh.jobs[k]? := by
    intro st k hk
    exact List.getElem?_set_ne (Ne.symm hk)
  have hslot : ∀ (st : Int),
      (sh.jobs.set i { pid := os.fork_ret, jid := sh.nextjid, state := st,
                       cmdline := cmdline })[i]? =
        some { pid := os.fork_ret, jid := sh.nextjid, state := st, cmdline := cmdline } := by
    intro st
    simp [hlt]
  have honly : ∀ (st : Int) (k : Nat) (j : job_t),
      (sh.jobs.set i { pid := os.fork_ret, jid := sh.nextjid, state := st,
                       cmdline := cmdline })[k]? = some j → j.pid = os.fork_ret → k = i := by
    intro st k j hk hjp
    by_contra hki
    rw [hothers st k hki] at hk
    exact hfresh j (List.getElem?_mem hk) hjp
  rw [eval_launch os sh cmdline bg cmd args hparse hcmd]
  simp only [hne, if_false]
  cases bg with
  | false =>
    simp only [if_true]
    rw [hadd FG]
    simp only [waitfg, Shell.emit]
    refine ⟨i, _, hfirst, rfl, hslot FG, hothers FG, honly FG, ?_, ?_⟩
    · intro _
      simp [addedMsg]
    · intro h
      cases h
  | true =>
    have hfirst' : FirstSlot (fun j => j.pid = os.fork_ret)
        (sh.jobs.set i { pid := os.fork_ret, jid := sh.nextjid, state := BG,
                         cmdline := cmdline }) i := by
      refine ⟨⟨_, hslot BG, rfl⟩, ?_⟩
      intro n j' hn hj' hjp
      have := honly BG n j' hj' hjp
      omega
    have hjid := pid2jid_first os.fork_ret hp1 _ i _ hfirst' (hslot BG)
    simp only [Bool.true_eq_false, if_false]
    rw [hadd BG]
    simp only [hjid, Shell.emit]
    refine ⟨i, _, hfirst, rfl, hslot BG, hothers BG, honly BG, ?_, ?_⟩
    · intro h
      cases h
    · intro _
      simp [addedMsg]


/-- C16 at a concrete input: `sleep 5 &` with child pid 200 beside one
background job. -/
theorem eval_parent_spec_witness :
    ∃ i sh', FirstSlot (fun j => j.pid = 0) oneBgShell.jobs i ∧
      eval (osWith 200) oneBgShell "sleep 5 &\n" = .ret () sh' ∧
      sh'.jobs[i]? = some { pid := (osWith 200).fork_ret, jid := oneBgShell.nextjid,
                            state := if true = false then FG else BG,
                            cmdline := "sleep 5 &\n" } ∧
      (∀ k, k ≠ i → sh'.jobs[k]? = oneBgShell.jobs[k]?) ∧
      (∀ k j, sh'.jobs[k]? = some j → j.pid = (osWith 200).fork_ret → k = i) ∧
      (true = false → sh'.trace = oneBgShell.trace ++ [Effect.fork (osWith 200).fork_ret]
        ++ addedMsg oneBgShell (osWith 200).fork_ret "sleep 5 &\n"
        ++ [Effect.waitfg (osWith 200).fork_ret]) ∧
      (true = true → sh'.trace = oneBgShell.trace ++ [Effect.fork (osWith 200).fork_ret]
        ++ addedMsg oneBgShell (osWith 200).fork_ret "sleep 5 &\n"
        ++ [Effect.print ("[" ++ toString oneBgShell.nextjid ++ "] ("
              ++ toString (osWith 200).fork_ret ++ ") " ++ "sleep 5 &\n")]) :=
  eval_parent_spec (osWith 200) oneBgShell "sleep 5 &\n" true "sleep" ["5"]
    (by decide) ⟨by decide, by decide, by decide, by decide⟩ (by decide) (by decide) (by decide)

/-- C17 evaluated on the code: with all 16 slots occupied, `eval` of `sleep 5 &`
forks child 200, prints "Tried to create too many jobs" and "[0] (200) sleep 5 &", and
returns with the job list unchanged, so that no slot holds pid 200; without `&` it
forks, prints the same error and calls `waitfg(200)`. -/
theorem eval_full_table_untracked_child :
    (∀ j ∈ fullShell.jobs, j.pid ≠ 0) ∧
    (eval (osWith 200) fullShell "sleep 5 &\n").returned.map Shell.trace
      = some [Effect.fork 200, Effect.print "Tried to create too many jobs\n",
              Effect.print "[0] (200) sleep 5 &\n"] ∧
    (eval (osWith 200) fullShell "sleep 5 &\n").returned.map Shell.jobs = some fullShell.jobs ∧
    (∀ j ∈ fullShell.jobs, j.pid ≠ 200) ∧
    (eval (osWith 200) fullShell "sleep 5\n").returned.map Shell.trace
      = some [Effect.fork 200, Effect.print "Tried to create too many jobs\n",
              Effect.waitfg 200] ∧
    (eval (osWith 200) fullShell "sleep 5\n").returned.map Shell.jobs = some fullShell.jobs := by
  decide

/-! ## `parseline` -/

set_option maxRecDepth 20000 in
/-- C18 as stated fails: the last argument of `sleep 5 &x` is not `&`, yet `parseline`
returns true and drops it; and for a line of 128 arguments the terminating `NULL` is
written outside the vector. -/
theorem parseline_ampersand_start :
    tokens "sleep 5 &x\n" = ["sleep", "5", "&x"] ∧
    parseline "sleep 5 &x\n" = some (true, ["sleep", "5"]) ∧
    (tokens manyArgsLine).length = 128 ∧
    parseline manyArgsLine = none := by
  decide

/-- C18, amended: for a non-empty command line with at least one and fewer than
`MAXARGS` arguments, `parseline` returns true if and only if the last argument begins
with `&` (so in particular when it is exactly `&`); the vector is then the arguments
without the last one, and otherwise all the arguments. -/
theorem parseline_spec (cmdline : String) (hne : cmdline.data ≠ [])
    (htok : tokens cmdline ≠ []) (hmax : (tokens cmdline).length < MAXARGS) :
    ∃ last, (tokens cmdline).getLast? = some last ∧
      (last.data.head? = some '&' →
        parseline cmdline = some (true, (tokens cmdline).dropLast)) ∧
      (last.data.head? ≠ some '&' → parseline cmdline = some (false, tokens cmdline)) ∧
      (last = "&" → parseline cmdline = some (true, (tokens cmdline).dropLast)) := by
  cases hl : (tokens cmdline).getLast? with
  | none =>
    rw [List.getLast?_eq_none_iff] at hl
    exact absurd hl htok
  | some last =>
    have hnm : ¬ MAXARGS ≤ (tokens cmdline).length := by omega
    have hyes : last.data.head? = some '&' →
        parseline cmdline = some (true, (tokens cmdline).dropLast) := by
      intro h
      simp [parseline, hne, hnm, hl, h]
    refine ⟨last, rfl, hyes, ?_, ?_⟩
    · intro h
      simp [parseline, hne, hnm, hl, h]
    · intro h
      subst h
      exact hyes rfl

/-- C18, amended, at a concrete input: the line `sleep 5 &`. -/
theorem parseline_spec_witness :
    ∃ last, (tokens "sleep 5 &\n").getLast? = some last ∧
      (last.data.head? = some '&' →
        parseline "sleep 5 &\n" = some (true, (tokens "sleep 5 &\n").dropLast)) ∧
      (last.data.head? ≠ some '&' →
        parseline "sleep 5 &\n" = some (false, tokens "sleep 5 &\n")) ∧
      (last = "&" → parseline "sleep 5 &\n" = some (true, (tokens "sleep 5 &\n").dropLast)) :=
  parseline_spec "sleep 5 &\n" (by decide) (by decide) (by decide)

/-- C19 as stated fails: the child whose `execve` fails prints "nosuchprog: Command
not found" and calls `exit(0)`, an exit status of zero. -/
theorem eval_child_exits_zero :
    eval (osWith 0) oneBgShell "nosuchprog -x\n"
      = .exit 0 { oneBgShell with
          trace := [Effect.fork 0, Effect.print "nosuchprog: Command not found\n"] } := by
  decide

/-- C19, amended: in the child (`fork` returned 0) of a command that is not built in,
whose scan for redirection tokens reaches `execve` with a command name, a failing
`execve` makes the child print "<argv[0]>: Command not found" and exit with status 0;
the job list is untouched and no `waitfg` is called. -/
theorem eval_child_exec_failure (os : Os) (sh : Shell) (cmdline : String) (bg : Bool)
    (cmd : String) (args : List String) (hparse : parseline cmdline = some (bg, cmd :: args))
    (hcmd : NotBuiltin cmd) (hchild : os.fork_ret = 0) (hexec : os.execve_ok = false)
    (hscan : redirectScan (cmd :: args) = true) (hname : isRedirect cmd = false) :
    eval os sh cmdline =
      .exit 0 { sh with trace := sh.trace ++
        [Effect.fork 0, Effect.print (cmd ++ ": Command not found\n")] } := by
  rw [eval_launch os sh cmdline bg cmd args hparse hcmd]
  simp [hchild, eval_child, hscan, hname, hexec, Shell.emit, List.takeWhile]

/-- C19, amended, at a concrete input: the line `nosuchprog -x`. -/
theorem eval_child_exec_failure_witness :
    eval (osWith 0) oneBgShell "nosuchprog -x\n" =
      .exit 0 { oneBgShell with trace := oneBgShell.trace ++
        [Effect.fork 0, Effect.print ("nosuchprog" ++ ": Command not found\n")] } :=
  eval_child_exec_failure (osWith 0) oneBgShell "nosuchprog -x\n" false "nosuchprog" ["-x"]
    (by decide) ⟨by decide, by decide, by decide, by decide⟩ (by decide) (by decide)
    (by decide) (by decide)

/-! ## `eval`: built-in commands -/

/-- C20 evaluated on the code: with one background job, one call of `builtin_cmd` for
`jobs` prints the job once, but `eval` of the line `jobs` prints it twice; one call of
`builtin_cmd` for `bg %1` sends one SIGCONT and prints one line, but `eval` of the line
`bg %1` sends two and prints two. -/
theorem eval_runs_builtin_twice :
    (builtin_cmd (osWith 200) oneBgShell ["jobs"]).returned.map Shell.trace
      = some [Effect.print "[1] (101) ", Effect.print "Running ", Effect.print "sleep 60 &\n"] ∧
    (eval (osWith 200) oneBgShell "jobs\n").returned.map Shell.trace
      = some [Effect.print "[1] (101) ", Effect.print "Running ", Effect.print "sleep 60 &\n",
              Effect.print "[1] (101) ", Effect.print "Running ", Effect.print "sleep 60 &\n"] ∧
    (builtin_cmd (osWith 200) oneBgShell ["bg", "%1"]).returned.map Shell.trace
      = some [Effect.kill 101 SIGCONT, Effect.print "[1] (101) sleep 60 &\n"] ∧
    (eval (osWith 200) oneBgShell "bg %1\n").returned.map Shell.trace
      = some [Effect.kill 101 SIGCONT, Effect.print "[1] (101) sleep 60 &\n",
              Effect.kill 101 SIGCONT, Effect.print "[1] (101) sleep 60 &\n"] := by
  decide


/-! ## `eval`: blank command lines -/

theorem scanTokens_spaces (m : Nat) : scanTokens .skip (List.replicate m ' ') = [] := by
  induction m with
  | zero => rfl
  | succ m ih => simp [List.replicate_succ, scanTokens, ih]

theorem tokens_blankLine (n : Nat) : tokens (blankLine n) = [] := by
  have h : (blankLine n).data.dropLast ++ [' '] = List.replicate (n + 1) ' ' := by
    simp [blankLine, List.replicate_succ']
  unfold tokens
  rw [h]
  exact scanTokens_spaces (n + 1)

/-- C21 evaluated on the code: for every blank line (`n` spaces and a newline, so also
for the bare newline) `parseline` leaves `argv[0] = NULL` and returns 1; `eval` then
calls `builtin_cmd(argv)`, whose first statement `strcmp(argv[0], "quit")` reads
through that `NULL` pointer, before the blank-line test is reached: `eval` does not
return. -/
theorem eval_blank_line_faults (os : Os) (sh : Shell) (n : Nat) :
    parseline (blankLine n) = some (true, []) ∧
    builtin_cmd os sh [] = .fault ∧
    eval os sh (blankLine n) = .fault ∧
    eval os sh "\n" = .fault := by
  have hne : (blankLine n).data ≠ [] := by simp [blankLine]
  have hparse : parseline (blankLine n) = some (true, []) := by
    simp [parseline, hne, tokens_blankLine, MAXARGS]
  have hparse0 : parseline "\n" = some (true, []) := by decide
  refine ⟨hparse, rfl, ?_, ?_⟩
  · simp [eval, hparse, builtin_cmd]
  · simp [eval, hparse0, builtin_cmd]


/-! ## Slot consistency -/

theorem slotOk_emptySlot : SlotOk emptySlot := by
  simp [SlotOk, emptySlot]

theorem slotOk_setState (job : job_t) (st : Int) (h : SlotOk job)
    (hocc : job.pid ≠ 0 ∨ job.jid ≠ 0) (hst : st ≠ UNDEF) :
    SlotOk { pid := job.pid, jid := job.jid, state := st, cmdline := job.cmdline } := by
  obtain ⟨h1, h2, h3⟩ := h
  have hjid : job.jid ≠ 0 := by
    rcases hocc with hp | hj
    · exact fun hj => hp (h1.2 hj)
    · exact hj
  refine ⟨h1, ?_, h3⟩
  simp only
  constructor
  · intro hj
    exact absurd hj hjid
  · intro hs
    exact absurd hs hst

theorem mem_modify (f : job_t → job_t) (l : List job_t) (i : Nat) (j : job_t)
    (h : j ∈ l.modify f i) : j ∈ l ∨ ∃ x, l[i]? = some x ∧ j = f x := by
  obtain ⟨n, hn⟩ := List.mem_iff_getElem?.1 h
  rw [List.getElem?_modify] at hn
  by_cases hin : i = n
  · subst hin
    cases hx : l[i]? with
    | none => simp [hx] at hn
    | some x =>
      right
      refine ⟨x, rfl, ?_⟩
      simpa [hx] using hn.symm
  · left
    cases hx : l[n]? with
    | none => simp [hx] at hn
    | some x =>
      have : j = x := by simpa [hx, hin] using hn.symm
      subst this
      exact List.getElem?_mem hx

theorem consistent_initShell (verbose : Int) : Consistent (initShell verbose) := by
  refine ⟨?_, by simp [initShell]⟩
  intro j hj
  simp only [initShell, initjobs, List.map_replicate, List.mem_replicate] at hj
  rw [hj.2]
  exact slotOk_emptySlot

theorem consistent_emit (sh : Shell) (e : Effect) (h : Consistent sh) :
    Consistent (sh.emit e) := h

theorem consistent_addjob (sh : Shell) (pid state : Int) (cmdline : String)
    (h : Consistent sh) (hp : 1 ≤ pid) (hst : state = FG ∨ state = BG ∨ state = ST) :
    Consistent (addjob sh pid state cmdline).2 := by
  cases hs : scan (fun j => decide (j.pid = 0)) sh.jobs with
  | none =>
    have hnp : ¬ pid < 1 := by omega
    simp only [addjob, hnp, if_false, hs]
    exact h
  | some i =>
    rw [addjob_of_scan sh pid state cmdline hp i hs]
    obtain ⟨hslots, hnext⟩ := h
    refine ⟨?_, ?_⟩
    · intro j hj
      rcases List.mem_or_eq_of_mem_set hj with hj | rfl
      · exact hslots j hj
      · have hstate : state ≠ UNDEF := by
          rcases hst with rfl | rfl | rfl <;> decide
        refine ⟨?_, ?_, ?_⟩
        · simp only
          constructor <;> intro h0 <;> omega
        · simp only
          constructor
          · intro h0; omega
          · intro h0; exact absurd h0 hstate
        · intro _
          exact ⟨hp, hnext⟩
    · simp only
      split <;> omega

theorem consistent_deletejob (sh : Shell) (pid : Int) (h : Consistent sh) :
    Consistent (deletejob sh pid).2 := by
  unfold deletejob
  by_cases hp : pid < 1
  · simpa [hp] using h
  · simp only [hp, if_false]
    cases hs : scan (fun j => decide (j.pid = pid)) sh.jobs with
    | none => exact h
    | some i =>
      refine ⟨?_, ?_⟩
      · intro j hj
        rcases mem_modify clearjob sh.jobs i j hj with hj | ⟨x, -, rfl⟩
        · exact h.1 j hj
        · exact slotOk_emptySlot
      · have := (maxjid_spec (sh.jobs.modify clearjob i)).1
        simp only
        omega


theorem getjobjid_some (jobs : List job_t) (jid : Int) (i : Nat)
    (h : getjobjid jobs jid = some i) :
    1 ≤ jid ∧ ∃ job, jobs[i]? = some job ∧ job.jid = jid := by
  unfold getjobjid at h
  split at h
  · cases h
  · obtain ⟨⟨job, hjob, ht⟩, -⟩ := (scan_some _ _ _).1 h
    exact ⟨by omega, job, hjob, by simpa using ht⟩

theorem getjobpid_some (jobs : List job_t) (pid : Int) (i : Nat)
    (h : getjobpid jobs pid = some i) :
    1 ≤ pid ∧ ∃ job, jobs[i]? = some job ∧ job.pid = pid := by
  unfold getjobpid at h
  split at h
  · cases h
  · obtain ⟨⟨job, hjob, ht⟩, -⟩ := (scan_some _ _ _).1 h
    exact ⟨by omega, job, hjob, by simpa using ht⟩

theorem do_bgfg_resolve_occupied (jobs : List job_t) (cmd arg : String) (i : Nat)
    (h : do_bgfg_resolve jobs cmd arg = .ok i) :
    ∃ job, jobs[i]? = some job ∧ (job.pid ≠ 0 ∨ job.jid ≠ 0) := by
  unfold do_bgfg_resolve at h
  split at h
  · simp only at h
    split at h
    · cases h
    · cases hg : getjobjid jobs (atoi arg.data.tail) with
      | none => rw [hg] at h; cases h
      | some k =>
        rw [hg] at h
        simp only [Except.ok.injEq] at h
        subst h
        obtain ⟨h1, job, hjob, hj⟩ := getjobjid_some jobs _ k hg
        exact ⟨job, hjob, Or.inr (by omega)⟩
  · simp only at h
    split at h
    · cases h
    · cases hg : getjobpid jobs (atoi arg.data) with
      | none => rw [hg] at h; cases h
      | some k =>
        rw [hg] at h
        simp only [Except.ok.injEq] at h
        subst h
        obtain ⟨h1, job, hjob, hj⟩ := getjobpid_some jobs _ k hg
        exact ⟨job, hjob, Or.inl (by omega)⟩

theorem consistent_set_state (sh : Shell) (i : Nat) (job : job_t) (st : Int) (tr : List Effect)
    (h : Consistent sh) (hjob : sh.jobs[i]? = some job)
    (hocc : job.pid ≠ 0 ∨ job.jid ≠ 0) (hst : st ≠ UNDEF) :
    Consistent { jobs := sh.jobs.set i { pid := job.pid, jid := job.jid, state := st,
                                         cmdline := job.cmdline },
                 nextjid := sh.nextjid, verbose := sh.verbose, trace := tr } := by
  refine ⟨?_, h.2⟩
  intro j hj
  rcases List.mem_or_eq_of_mem_set hj with hj | rfl
  · exact h.1 j hj
  · exact slotOk_setState job st (h.1 job (List.getElem?_mem hjob)) hocc hst

theorem consistent_do_bgfg (sh : Shell) (argv : List String) (sh1 : Shell)
    (h : Consistent sh) (hrun : do_bgfg sh argv = some sh1) : Consistent sh1 := by
  match argv with
  | [] => simp [do_bgfg] at hrun
  | [cmd] =>
    simp only [do_bgfg, Option.some.injEq] at hrun
    subst hrun
    exact h
  | cmd :: arg :: rest =>
    simp only [do_bgfg] at hrun
    cases hres : do_bgfg_resolve sh.jobs cmd arg with
    | error msg =>
      simp only [hres, Option.some.injEq] at hrun
      subst hrun
      exact h
    | ok i =>
      obtain ⟨job, hjob, hocc⟩ := do_bgfg_resolve_occupied sh.jobs cmd arg i hres
      simp only [hres, hjob, Option.some.injEq] at hrun
      subst hrun
      by_cases hfg : cmd = "fg"
      · have hbg : ¬ cmd = "bg" := by
          rw [hfg]
          decide
        simp only [hfg, if_true, Shell.emit]
        have hbg2 : ¬ ("fg" = "bg") := by decide
        simp only [hbg2, if_false]
        exact consistent_set_state sh i job FG _ h hjob hocc (by decide)
      · by_cases hbg : cmd = "bg"
        · simp only [hfg, if_false, hbg, if_true, Shell.emit]
          exact consistent_set_state sh i job BG _ h hjob hocc (by decide)
        · simp only [hfg, if_false, hbg, Shell.emit]
          exact h

theorem consistent_sigchld_reap (sh : Shell) (pid : Int) (status : Status)
    (h : Consistent sh) : Consistent (sigchld_reap sh pid status) := by
  unfold sigchld_reap
  cases hg : getjobpid sh.jobs pid with
  | none => exact h
  | some i =>
    obtain ⟨hp, job, hjob, hjp⟩ := getjobpid_some sh.jobs pid i hg
    cases status with
    | exited code => exact consistent_deletejob sh pid h
    | signaled sig => exact consistent_deletejob _ pid (consistent_emit sh _ h)
    | stopped sig =>
      simp only [Shell.emit]
      refine ⟨?_, h.2⟩
      intro j hj
      rcases mem_modify _ sh.jobs i j hj with hj | ⟨x, hx, rfl⟩
      · exact h.1 j hj
      · rw [hjob] at hx
        cases hx
        exact slotOk_setState job ST (h.1 job (List.getElem?_mem hjob))
          (Or.inl (by omega)) (by decide)

/-- Every reachable state is consistent. -/
theorem consistent_of_reachable (sh : Shell) (h : Reachable sh) : Consistent sh := by
  induction h with
  | init verbose => exact consistent_initShell verbose
  | add sh pid state cmdline _ hp hst ih => exact consistent_addjob sh pid state cmdline ih hp hst
  | del sh pid _ ih => exact consistent_deletejob sh pid ih
  | bgfg sh argv sh1 _ hrun ih => exact consistent_do_bgfg sh argv sh1 ih hrun
  | reap sh pid status _ ih => exact consistent_sigchld_reap sh pid status ih


/-- C22: in every state reachable from `initjobs` with `nextjid = 1` by `addjob` (pid at
least 1, state `FG`, `BG` or `ST`), `deletejob`, `do_bgfg` and the reaper, every slot
has pid 0 exactly when it has jid 0 and jid 0 exactly when its state is `UNDEF`, every
occupied slot has pid and jid at least 1, and `nextjid` is at least 1; hence the
routines agree on the occupied slots: `listjobs` prints a slot exactly when its pid is
not 0, a slot in state `FG` has a non-zero pid (so `fgpid` is 0 exactly when no slot is
`FG`), a slot has a positive jid exactly when its pid is not 0, `getjobjid` only
returns occupied slots, and `maxjid` is 0 exactly when no slot is occupied. -/
theorem slot_consistency (sh : Shell) (h : Reachable sh) :
    (∀ j ∈ sh.jobs, (j.pid = 0 ↔ j.jid = 0) ∧ (j.jid = 0 ↔ j.state = UNDEF) ∧
      (j.pid ≠ 0 → 1 ≤ j.pid ∧ 1 ≤ j.jid)) ∧
    1 ≤ sh.nextjid ∧
    (∀ (i : Nat), ∀ j ∈ sh.jobs, (listjobsSlot i j ≠ [] ↔ j.pid ≠ 0) ∧
      (j.state = FG → j.pid ≠ 0) ∧ (0 < j.jid ↔ j.pid ≠ 0)) ∧
    (fgpid sh.jobs = 0 ↔ ∀ j ∈ sh.jobs, j.state ≠ FG) ∧
    (∀ (jid : Int) (i : Nat), getjobjid sh.jobs jid = some i →
      ∃ j, sh.jobs[i]? = some j ∧ j.pid ≠ 0) ∧
    (maxjid sh.jobs = 0 ↔ ∀ j ∈ sh.jobs, j.pid = 0) := by
  obtain ⟨hslots, hnext⟩ := consistent_of_reachable sh h
  have hfgocc : ∀ j ∈ sh.jobs, j.state = FG → j.pid ≠ 0 := by
    intro j hj hs hp
    obtain ⟨h1, h2, -⟩ := hslots j hj
    have := h2.1 (h1.1 hp)
    rw [hs] at this
    exact absurd this (by decide)
  have hjidocc : ∀ j ∈ sh.jobs, (0 < j.jid ↔ j.pid ≠ 0) := by
    intro j hj
    obtain ⟨h1, -, h3⟩ := hslots j hj
    constructor
    · intro hpos hp
      have := h1.1 hp
      omega
    · intro hp
      have := (h3 hp).2
      omega
  refine ⟨hslots, hnext, ?_, ?_, ?_, ?_⟩
  · intro i j hj
    refine ⟨?_, hfgocc j hj, hjidocc j hj⟩
    by_cases hp : j.pid = 0 <;> simp [listjobsSlot, hp]
  · constructor
    · intro h0
      rcases fgpid_first sh.jobs with hnone | ⟨i, j, -, hj, hjs, hfg⟩
      · exact hnone
      · exact absurd (hfg ▸ h0) (hfgocc j (List.getElem?_mem hj) hjs)
    · exact fgpid_eq_zero_of_none sh.jobs
  · intro jid i hg
    obtain ⟨h1, job, hjob, hj⟩ := getjobjid_some sh.jobs jid i hg
    exact ⟨job, hjob, (hjidocc job (List.getElem?_mem hjob)).1 (by omega)⟩
  · obtain ⟨h0, hle, hmax⟩ := maxjid_spec sh.jobs
    constructor
    · intro hm j hj
      by_contra hp
      have := (hjidocc j hj).2 hp
      have := hle j hj
      omega
    · intro hall
      rcases hmax with hmax | ⟨j, hj, hjm⟩
      · exact hmax
      · have := (hslots j hj).1.1 (hall j hj)
        omega

/-- C22 at a concrete input: the state after one background job is added and then
stopped. -/
theorem slot_consistency_witness :
    (∀ j ∈ (sigchld_reap oneBgShell 101 (.stopped 20)).jobs,
      (j.pid = 0 ↔ j.jid = 0) ∧ (j.jid = 0 ↔ j.state = UNDEF) ∧
      (j.pid ≠ 0 → 1 ≤ j.pid ∧ 1 ≤ j.jid)) ∧
    1 ≤ (sigchld_reap oneBgShell 101 (.stopped 20)).nextjid ∧
    (∀ (i : Nat), ∀ j ∈ (sigchld_reap oneBgShell 101 (.stopped 20)).jobs,
      (listjobsSlot i j ≠ [] ↔ j.pid ≠ 0) ∧
      (j.state = FG → j.pid ≠ 0) ∧ (0 < j.jid ↔ j.pid ≠ 0)) ∧
    (fgpid (sigchld_reap oneBgShell 101 (.stopped 20)).jobs = 0 ↔
      ∀ j ∈ (sigchld_reap oneBgShell 101 (.stopped 20)).jobs, j.state ≠ FG) ∧
    (∀ (jid : Int) (i : Nat),
      getjobjid (sigchld_reap oneBgShell 101 (.stopped 20)).jobs jid = some i →
      ∃ j, (sigchld_reap oneBgShell 101 (.stopped 20)).jobs[i]? = some j ∧ j.pid ≠ 0) ∧
    (maxjid (sigchld_reap oneBgShell 101 (.stopped 20)).jobs = 0 ↔
      ∀ j ∈ (sigchld_reap oneBgShell 101 (.stopped 20)).jobs, j.pid = 0) :=
  slot_consistency (sigchld_reap oneBgShell 101 (.stopped 20))
    (Reachable.reap oneBgShell 101 (.stopped 20)
      (Reachable.add (initShell 0) 101 BG "sleep 60 &\n" (Reachable.init 0) (by decide)
        (Or.inr (Or.inl rfl))))


/-! ## `fgpid` on the job lists of the shell -/

/-- C7: on every job list the shell builds (every state reachable from `initjobs` by
`addjob`, `deletejob`, `do_bgfg` and the reaper), `fgpid` returns 0 if and only if no
slot has state `FG`; and when exactly one slot has state `FG`, `fgpid` returns the pid
of that slot.  It is a function of the list alone and returns no new list. -/
theorem fgpid_reachable (sh : Shell) (h : Reachable sh) :
    (fgpid sh.jobs = 0 ↔ ∀ j ∈ sh.jobs, j.state ≠ FG) ∧
    (fgCount sh.jobs = 1 → ∀ j ∈ sh.jobs, j.state = FG → fgpid sh.jobs = j.pid) := by
  obtain ⟨hslots, -⟩ := consistent_of_reachable sh h
  have hocc : ∀ j ∈ sh.jobs, j.state = FG → j.pid ≠ 0 := by
    intro j hj hs hp
    obtain ⟨h1, h2, -⟩ := hslots j hj
    have hu := h2.1 (h1.1 hp)
    rw [hs] at hu
    exact absurd hu (by decide)
  exact ⟨(fgpid_spec sh.jobs).2.1 hocc, (fgpid_spec sh.jobs).2.2⟩

/-- C7 at a concrete input: the state after a background job (pid 101) and a
foreground job (pid 103) are added; `fgpid` is 103. -/
theorem fgpid_reachable_witness :
    (fgpid (addjob (addjob (initShell 0) 101 BG "a &\n").2 103 FG "b\n").2.jobs = 0 ↔
      ∀ j ∈ (addjob (addjob (initShell 0) 101 BG "a &\n").2 103 FG "b\n").2.jobs,
        j.state ≠ FG) ∧
    (fgCount (addjob (addjob (initShell 0) 101 BG "a &\n").2 103 FG "b\n").2.jobs = 1 →
      ∀ j ∈ (addjob (addjob (initShell 0) 101 BG "a &\n").2 103 FG "b\n").2.jobs,
        j.state = FG →
        fgpid (addjob (addjob (initShell 0) 101 BG "a &\n").2 103 FG "b\n").2.jobs = j.pid) ∧
    fgCount (addjob (addjob (initShell 0) 101 BG "a &\n").2 103 FG "b\n").2.jobs = 1 ∧
    fgpid (addjob (addjob (initShell 0) 101 BG "a &\n").2 103 FG "b\n").2.jobs = 103 :=
  ⟨(fgpid_reachable _
      (Reachable.add _ 103 FG "b\n"
        (Reachable.add (initShell 0) 101 BG "a &\n" (Reachable.init 0) (by decide)
          (Or.inr (Or.inl rfl)))
        (by decide) (Or.inl rfl))).1,
   (fgpid_reachable _
      (Reachable.add _ 103 FG "b\n"
        (Reachable.add (initShell 0) 101 BG "a &\n" (Reachable.init 0) (by decide)
          (Or.inr (Or.inl rfl)))
        (by decide) (Or.inl rfl))).2,
   by decide, by decide⟩

end Tsh
